import Mathlib

/-!
Verification of the FraudX detection engine (backend/app/engine/*) against its
natural-language specification.

Modelling conventions, used throughout:

* Python/pandas floats are modelled as `ℚ`.  Every comparison settled below is
  robust: the quantities compared are ratios of integers far above the double
  rounding error, so the `ℚ` model and the float code agree on them.
* Timestamps are modelled as `ℤ` (int64 nanoseconds, exactly as the detectors
  convert them with `.values.astype(np.int64)`).
* Python dicts are modelled as insertion-ordered association lists
  `List (κ × β)`; dict writes are `aset`, reads are `alookup`.
* `math.log10` and the square root inside a standard deviation are
  transcendental; functions whose *values* depend on them take those maps as
  explicit parameters (`log10`, `sqrt`), and comparisons of the form
  `std / mean < t` are written in the equivalent squared form
  `var < t² · mean²` (valid since both sides of the original comparison are
  nonnegative reals and `mean > 0` on that code path).
* Library calls with no Lean counterpart (`nx.strongly_connected_components`,
  `nx.simple_cycles`) are taken as inputs of the functions that consume them;
  every theorem either holds for all values of those inputs or instantiates
  them with an honest enumeration for the concrete graph at hand.
-/

namespace FraudX

attribute [local semireducible] Rat.add Rat.mul Rat.inv Rat.sub Rat.ofScientific

/-- Association-list lookup, modelling Python `dict.get` / `d[k]`. -/
def alookup {α β : Type} [DecidableEq α] : List (α × β) → α → Option β
  | [], _ => none
  | (k, v) :: m, k2 => if k2 = k then some v else alookup m k2

/-- Association-list write, modelling Python `d[k] = v` (insertion order kept,
new keys appended at the end exactly as CPython dicts do). -/
def aset {α β : Type} [DecidableEq α] : List (α × β) → α → β → List (α × β)
  | [], k, v => [(k, v)]
  | (k1, v1) :: m, k, v =>
    if k = k1 then (k1, v) :: m else (k1, v1) :: aset m k v

/-- Lexicographic comparison of char lists by code point. -/
def strLtAux : List Char → List Char → Bool
  | [], [] => false
  | [], _ :: _ => true
  | _ :: _, [] => false
  | a :: as, b :: bs =>
    if a < b then true else if b < a then false else strLtAux as bs

/-- Python `<` on strings: lexicographic by code point. -/
def pyStrLt (a b : String) : Bool := strLtAux a.data b.data

/-- Python `<=` on strings. -/
def pyStrLe (a b : String) : Bool := !(pyStrLt b a)

/-- Stable insertion into a sorted list: the new element goes after every
element `y` with `le y x` fails... i.e. before the first `y` with `le x y`
and `x` not after it; equal keys keep their original relative order, the
guarantee Python's `sorted` gives. -/
def insertLe {α : Type} (le : α → α → Bool) (x : α) : List α → List α
  | [] => [x]
  | y :: ys => if le x y then x :: y :: ys else y :: insertLe le x ys

/-- Stable sort by a boolean comparator, modelling Python `sorted`. -/
def sortBy {α : Type} (le : α → α → Bool) : List α → List α
  | [] => []
  | x :: xs => insertLe le x (sortBy le xs)

/-- Inserting is a permutation of consing. -/
theorem perm_insertLe {α : Type} (le : α → α → Bool) (x : α) :
    ∀ l : List α, (insertLe le x l).Perm (x :: l) := by
  intro l
  induction l with
  | nil => simp [insertLe]
  | cons y ys ih =>
    by_cases h : le x y = true
    · simp [insertLe, h]
    · simp only [insertLe, h, if_false]
      exact (ih.cons y).trans (List.Perm.swap x y ys)

/-- Sorting permutes the list. -/
theorem perm_sortBy {α : Type} (le : α → α → Bool) :
    ∀ l : List α, (sortBy le l).Perm l := by
  intro l
  induction l with
  | nil => exact List.Perm.refl _
  | cons x xs ih => exact (perm_insertLe le x (sortBy le xs)).trans (ih.cons x)

/-- Membership is invariant under sorting. -/
theorem mem_sortBy {α : Type} {le : α → α → Bool} {l : List α} {a : α} :
    a ∈ sortBy le l ↔ a ∈ l :=
  (perm_sortBy le l).mem_iff

/-- Banker's rounding of a rational to an integer, the semantics of Python
`round` for exactly-representable halves. -/
def roundHalfEven (y : ℚ) : ℤ :=
  let f : ℤ := Int.fdiv y.num y.den
  let r : ℚ := y - f
  if r < 1/2 then f
  else if 1/2 < r then f + 1
  else if f % 2 = 0 then f else f + 1

/-- Python `round(x, ndigits)` on the `ℚ` model. -/
def pyRound (ndigits : ℕ) (x : ℚ) : ℚ :=
  let m : ℚ := (10 : ℚ) ^ ndigits
  (roundHalfEven (x * m) : ℚ) / m

/-- Median of a list of rationals, as `pandas.Series.median` computes it on a
nonempty column (mid element, or mean of the two mid elements). -/
def median (xs : List ℚ) : ℚ :=
  let s := sortBy (fun a b => decide (a ≤ b)) xs
  let n := s.length
  if n = 0 then 0
  else if n % 2 = 1 then s.getD (n / 2) 0
  else (s.getD (n / 2 - 1) 0 + s.getD (n / 2) 0) / 2

/-- Configuration record, translated field by field from `app/config.py`
(engine-relevant fields only). -/
structure Settings where
  min_cycle_length : ℕ := 3
  max_cycle_length : ℕ := 5
  cycle_volume_threshold_pct : ℚ := 1/100
  smurfing_window_hours : ℕ := 72
  smurfing_min_degree : ℕ := 10
  shell_max_total_transactions : ℕ := 3
  shell_chain_min_hops : ℕ := 3
  burst_window_hours : ℕ := 1
  burst_min_transactions : ℕ := 5
  daily_velocity_window_hours : ℕ := 24
  daily_velocity_min_transactions : ℕ := 15
  velocity_spike_ratio : ℚ := 3
  velocity_spike_window_days : ℕ := 7
  dormancy_min_days : ℕ := 30
  dormancy_activity_window_hours : ℕ := 48
  dormancy_activity_threshold : ℕ := 5
  payroll_interval_cv_threshold : ℚ := 1/5
  payroll_amount_cv_threshold : ℚ := 3/20
  merchant_min_in_degree : ℕ := 50
  suspicious_score_threshold : ℚ := 12

/-- Default settings, the values fixed in `app/config.py`. -/
def defaultSettings : Settings := {}

/-- Validated transaction row (columns of the clean DataFrame; the unused
`transaction_id` column is dropped).  `ts` is the timestamp in int64 ns. -/
structure Row (α : Type) where
  sender : α
  receiver : α
  amount : ℚ
  ts : ℤ
deriving DecidableEq

/-- Per-detector result, translated from `app/models/algorithm_result.py`.
Python's cluster sets are modelled as lists; a list stands for the set of its
elements, and its order models one iteration order of the set. -/
structure AlgorithmResult (α : Type) where
  account_flags : List (α × List String) := []
  account_scores : List (α × ℚ) := []
  clusters : List (List α) := []
deriving DecidableEq

/-- Empty `AlgorithmResult`, the dataclass defaults. -/
def AlgorithmResult.empty {α : Type} : AlgorithmResult α := {}

/-- Translation of `BaseAlgorithm._add_flag`: append the pattern to the
account's flag list unless already present. -/
def addFlag {α : Type} [DecidableEq α]
    (r : AlgorithmResult α) (acc : α) (pat : String) : AlgorithmResult α :=
  match alookup r.account_flags acc with
  | none => { r with account_flags := r.account_flags ++ [(acc, [pat])] }
  | some flags =>
    if pat ∈ flags then r
    else { r with account_flags := aset r.account_flags acc (flags ++ [pat]) }

/-- Translation of the detectors' shared max-update idiom
`if result.account_scores.get(a, 0.0) < s: result.account_scores[a] = s`. -/
def bumpScore {α : Type} [DecidableEq α]
    (r : AlgorithmResult α) (acc : α) (s : ℚ) : AlgorithmResult α :=
  if (alookup r.account_scores acc).getD 0 < s then
    { r with account_scores := aset r.account_scores acc s }
  else r

/-- Flag-membership reading of an `AlgorithmResult` (or of a combined flag
map): the account carries the pattern label. -/
def hasFlag {α : Type} [DecidableEq α]
    (flags : List (α × List String)) (acc : α) (pat : String) : Prop :=
  pat ∈ (alookup flags acc).getD []

instance {α : Type} [DecidableEq α] (flags : List (α × List String)) (acc : α)
    (pat : String) : Decidable (hasFlag flags acc pat) := by
  unfold hasFlag; infer_instance

/-! ## Graph builder (`app/engine/graph_builder.py`) -/

/-- Node attributes attached by `build_graph`. -/
structure NodeAttrs where
  total_transactions : ℕ
  out_degree_count : ℕ
  in_degree_count : ℕ
deriving DecidableEq

/-- Edge attributes attached by `build_graph`. -/
structure EdgeAttrs where
  weight : ℚ
  count : ℕ
deriving DecidableEq

/-- Directed graph with the node/edge attribute tables `build_graph` creates. -/
structure Graph (α : Type) where
  nodes : List α
  nodeAttrs : List (α × NodeAttrs)
  edges : List ((α × α) × EdgeAttrs)
deriving DecidableEq

/-- Node-attribute read, modelling `G.nodes[n].get(attr, 0)`. -/
def Graph.attr {α : Type} [DecidableEq α] (G : Graph α) (n : α) : NodeAttrs :=
  (alookup G.nodeAttrs n).getD ⟨0, 0, 0⟩

/-- Total row count of an account (sender or receiver side). -/
def Graph.totalTransactions {α : Type} [DecidableEq α] (G : Graph α) (n : α) : ℕ :=
  (G.attr n).total_transactions

/-- Edge-existence test, modelling `G.has_edge(u, v)`. -/
def Graph.hasEdge {α : Type} [DecidableEq α] (G : Graph α) (u v : α) : Bool :=
  (alookup G.edges (u, v)).isSome

/-- Edge weight read, modelling `G[u][v].get("weight", 0.0)`. -/
def Graph.weight {α : Type} [DecidableEq α] (G : Graph α) (u v : α) : ℚ :=
  ((alookup G.edges (u, v)).map (·.weight)).getD 0

/-- Successor list, modelling `G.successors(u)` (edges are collapsed per
ordered pair, so each successor occurs once). -/
def Graph.successors {α : Type} [DecidableEq α] (G : Graph α) (u : α) : List α :=
  (G.edges.filter (fun e => e.1.1 = u)).map (fun e => e.1.2)

/-- Translation of `build_graph`: one collapsed weighted edge per ordered
`(sender, receiver)` pair, per-node row counts as attributes. -/
def buildGraph {α : Type} [DecidableEq α] (df : List (Row α)) : Graph α :=
  let accounts := (df.map (·.sender) ++ df.map (·.receiver)).dedup
  let outCnt := fun a => (df.filter (fun r => r.sender = a)).length
  let inCnt := fun a => (df.filter (fun r => r.receiver = a)).length
  let pairs := (df.map (fun r => (r.sender, r.receiver))).dedup
  { nodes := accounts
    nodeAttrs := accounts.map (fun a => (a, ⟨outCnt a + inCnt a, outCnt a, inCnt a⟩))
    edges := pairs.map (fun p =>
      let rows := df.filter (fun r => r.sender = p.1 ∧ r.receiver = p.2)
      (p, ⟨(rows.map (·.amount)).sum, rows.length⟩)) }

/-! ## Scoring (`app/engine/scoring.py`)

The module defines a flags-based scorer: fixed pattern-point values, the
category-wise maximum, the cross-category sum, and a velocity-only cap. -/

/-- Pattern-point table `_PATTERN_SCORES`. -/
def PATTERN_SCORES : List (String × ℕ) :=
  [("cycle_length_3", 40), ("cycle_length_4", 32), ("cycle_length_5", 25),
   ("smurfing_fan_in", 25), ("smurfing_fan_out", 22),
   ("shell_intermediary", 20), ("shell_source", 15),
   ("burst_activity", 15), ("dormancy_break", 13),
   ("high_velocity", 11), ("velocity_spike", 9)]

/-- Category membership `_CYCLE_PATTERNS`. -/
def CYCLE_PATTERNS : List String :=
  ["cycle_length_3", "cycle_length_4", "cycle_length_5"]

/-- Category membership `_SMURFING_PATTERNS`. -/
def SMURFING_PATTERNS : List String := ["smurfing_fan_in", "smurfing_fan_out"]

/-- Category membership `_SHELL_PATTERNS`. -/
def SHELL_PATTERNS : List String := ["shell_intermediary", "shell_source"]

/-- Category membership `_VELOCITY_PATTERNS` (scoring module). -/
def VELOCITY_PATTERNS : List String :=
  ["burst_activity", "dormancy_break", "high_velocity", "velocity_spike"]

/-- Cap `_VELOCITY_ONLY_CAP`. -/
def VELOCITY_ONLY_CAP : ℚ := 35

/-- Highest pattern-point value of the account's patterns within one
category (`max(..., default=0)` over the set intersection). -/
def categoryMax (patterns : List String) (category : List String) : ℕ :=
  ((patterns.filter (· ∈ category)).filterMap
    (fun p => alookup PATTERN_SCORES p)).foldl max 0

/-- Translation of `_score_patterns`. -/
def scorePatterns (patterns : List String) : ℚ :=
  if patterns = [] then 0
  else
    let cycleScore := categoryMax patterns CYCLE_PATTERNS
    let smurfingScore := categoryMax patterns SMURFING_PATTERNS
    let shellScore := categoryMax patterns SHELL_PATTERNS
    let velocityScore := categoryMax patterns VELOCITY_PATTERNS
    let total : ℚ := (cycleScore + smurfingScore + shellScore + velocityScore : ℕ)
    if cycleScore = 0 ∧ smurfingScore = 0 ∧ shellScore = 0 then
      min total VELOCITY_ONLY_CAP
    else total

/-- Translation of `compute_scores` exactly as `scoring.py` defines it: four
parameters `(combined_flags, suppressed_flags, G, settings)`, scoring the
effective (post-suppression) flag list of every flagged account. -/
def computeScores (combined_flags suppressed_flags : List (String × List String))
    (_G : Graph String) (_settings : Settings) : List (String × ℚ) :=
  combined_flags.map (fun kv =>
    let removed := (alookup suppressed_flags kv.1).getD []
    (kv.1, scorePatterns (kv.2.filter (· ∉ removed))))

/-- Parameter list of `compute_scores` as defined in
`app/engine/scoring.py`, line 52. -/
def computeScoresParams : List String :=
  ["combined_flags", "suppressed_flags", "G", "settings"]

/-- Positional argument list of the call `compute_scores(...)` in
`app/engine/pipeline.py`, lines 108-114. -/
def pipelineComputeScoresArgs : List String :=
  ["cycle_result.account_scores", "smurf_result.account_scores",
   "shell_result.account_scores", "suppression_multipliers",
   "velocity_result.account_scores"]

/-- Scoring fusion as the spec's §4.7 describes it (and as the call site in
`pipeline.py` and the unit tests in `test_scoring.py` expect `compute_scores`
to behave): per-category continuous score maps plus a multiplier map, fused as
`round(cycle + multiplier·smurfing + shell + velocity, 1)` with defaults 0
(scores) and 1 (multiplier). -/
def computeScoresSpec (cycle smurf shell mult velocity : List (String × ℚ)) :
    List (String × ℚ) :=
  let accounts := ((cycle ++ smurf ++ shell ++ velocity).map (·.1)).dedup
  accounts.map (fun a =>
    (a, pyRound 1 ((alookup cycle a).getD 0
        + (alookup mult a).getD 1 * (alookup smurf a).getD 0
        + (alookup shell a).getD 0 + (alookup velocity a).getD 0)))

/-- C1: the pipeline's step-4 call of `compute_scores` passes five positional
arguments (cycle, smurfing, shell score maps, multipliers, velocity score map)
to a function defined with four parameters (combined_flags, suppressed_flags,
G, settings); the call cannot bind, so `run_pipeline` raises `TypeError` on
every valid transaction table instead of returning a `ForensicResult`. -/
theorem c1_pipeline_scoring_call_arity_mismatch :
    pipelineComputeScoresArgs.length ≠ computeScoresParams.length := by
  decide

/-- C2: the fusion the claim states (`round(cycle + multiplier·smurfing +
shell + velocity, 1)`, here `computeScoresSpec`, the behaviour the repo's own
`test_scoring.py::test_full_suppression_multiplier` expects: 38 + 0.1·20 → 40.0)
is not what the defined `compute_scores` computes: the defined function maps
flag lists to fixed pattern-point sums (`cycle_length_3` + `smurfing_fan_in`
→ 40 + 25 = 65). -/
theorem c2_scoring_fusion_divergence :
    alookup (computeScoresSpec [("ACC_A", 38)] [("ACC_A", 20)] [] [("ACC_A", 1/10)] [])
      "ACC_A" = some 40
    ∧ alookup (computeScores [("ACC_A", ["cycle_length_3", "smurfing_fan_in"])] []
        (buildGraph []) defaultSettings) "ACC_A" = some 65 := by
  constructor
  · decide
  · rfl

/-! ## Ring merger (`app/engine/ring_merger.py`) -/

/-- Result row of the ring merger (`RingInfo` dataclass). -/
structure RingInfo where
  ring_id : String
  member_accounts : List String
  pattern_type : String
  risk_score : ℚ
deriving DecidableEq

/-- Union-Find state (`_UnionFind`): parent and rank dicts over the
suspicious-account universe. -/
structure UnionFind where
  parent : List (String × String)
  rank : List (String × ℕ)
deriving DecidableEq

/-- Translation of `_UnionFind.find`.  The source recurses on the parent
chain (with path compression); the model walks the same chain with enough
fuel and no compression, which returns the identical root. -/
def ufFind : ℕ → UnionFind → String → String
  | 0, _, x => x
  | fuel + 1, uf, x =>
    match alookup uf.parent x with
    | none => x
    | some p => if p = x then x else ufFind fuel uf p

/-- Translation of `_UnionFind.union` (union by rank, including the swap). -/
def ufUnion (fuel : ℕ) (uf : UnionFind) (x y : String) : UnionFind :=
  let rx0 := ufFind fuel uf x
  let ry0 := ufFind fuel uf y
  if rx0 = ry0 then uf
  else
    let rkx := (alookup uf.rank rx0).getD 0
    let rky := (alookup uf.rank ry0).getD 0
    let rx := if rkx < rky then ry0 else rx0
    let ry := if rkx < rky then rx0 else ry0
    let parent2 := aset uf.parent ry rx
    let rank2 :=
      if (alookup uf.rank rx).getD 0 = (alookup uf.rank ry).getD 0 then
        aset uf.rank rx ((alookup uf.rank rx).getD 0 + 1)
      else uf.rank
    ⟨parent2, rank2⟩

/-- Translation of `_UnionFind.get_groups`: one group per distinct root, the
group of root `r` being exactly the universe members whose root is `r`
(`groups.setdefault(root, set()).add(node)` builds precisely these sets). -/
def ufGroups (fuel : ℕ) (uf : UnionFind) (univ : List String) :
    List (List String) :=
  let roots := (univ.map (ufFind fuel uf)).dedup
  roots.map (fun r => univ.filter (fun x => ufFind fuel uf x = r))

/-- Universe of the ring merger, step 1 of `merge_rings`: accounts whose
score satisfies `s >= threshold`. -/
def ringUniverse (scores : List (String × ℚ)) (settings : Settings) : List String :=
  (scores.filter (fun kv => settings.suspicious_score_threshold ≤ kv.2)).map (·.1)

/-- Set of velocity pattern labels used by `_classify_pattern_type`. -/
def RING_VELOCITY_PATTERNS : List String :=
  ["burst_activity", "high_velocity", "velocity_spike", "dormancy_break"]

/-- Translation of `_classify_pattern_type`. -/
def classifyPatternType (patterns : List String) : String :=
  let has_cycle := patterns.any (·.startsWith "cycle_")
  let has_smurfing := patterns.any (·.startsWith "smurfing_")
  let has_shell := patterns.any (·.startsWith "shell_")
  let has_velocity := patterns.any (· ∈ RING_VELOCITY_PATTERNS)
  let active := (cond has_cycle 1 0) + (cond has_smurfing 1 0)
    + (cond has_shell 1 0) + (cond has_velocity 1 0)
  if 1 < active then "mixed"
  else if has_cycle then "cycle"
  else if has_smurfing then "smurfing"
  else if has_shell then "shell"
  else if has_velocity then "velocity"
  else "unknown"

/-- Translation of `_compute_ring_risk`.  The group is always nonempty at
call sites (`len(group) >= 2`), so the mean's denominator is nonzero. -/
def computeRingRisk (group : List String) (scores : List (String × ℚ))
    (ring_patterns : List String) : ℚ :=
  let member_scores := group.map (fun a => (alookup scores a).getD 0)
  let base_score := member_scores.sum / (member_scores.length : ℚ)
  let distinct_types : ℕ := (cond (ring_patterns.any (·.startsWith "cycle_")) 1 0)
    + (cond (ring_patterns.any (·.startsWith "smurfing_")) 1 0)
    + (cond (ring_patterns.any (·.startsWith "shell_")) 1 0)
  let pattern_bonus : ℚ := min 15 (((distinct_types : ℚ) - 1) * 5)
  let cycle3_bonus : ℚ := if "cycle_length_3" ∈ ring_patterns then 10 else 0
  min 100 (pyRound 1 (base_score + pattern_bonus + cycle3_bonus))

/-- Effective (post-suppression) pattern labels gathered over a group, the
`ring_patterns` set in `merge_rings` (modelled as a deduplicated list with
the same membership). -/
def ringEffectivePatterns (group : List String)
    (combined suppressed : List (String × List String)) : List String :=
  (group.flatMap (fun a =>
    ((alookup combined a).getD []).filter
      (· ∉ (alookup suppressed a).getD []))).dedup

/-- Python `f"RING_{counter:03d}"`. -/
def ringIdString (n : ℕ) : String :=
  let digits := toString n
  let pad := if n < 10 then "00" else if n < 100 then "0" else ""
  "RING_" ++ pad ++ digits

/-- Step-4 loop of `merge_rings`: walk the sorted groups, skip singletons,
and assign `RING_{counter:03d}` ids in order. -/
def buildRingList (scores : List (String × ℚ))
    (combined suppressed : List (String × List String)) :
    ℕ → List (List String) → List RingInfo
  | _, [] => []
  | counter, g :: rest =>
    if g.length < 2 then buildRingList scores combined suppressed counter rest
    else
      let ring_patterns := ringEffectivePatterns g combined suppressed
      { ring_id := ringIdString counter
        member_accounts := sortBy pyStrLe g
        pattern_type := classifyPatternType ring_patterns
        risk_score := computeRingRisk g scores ring_patterns }
        :: buildRingList scores combined suppressed (counter + 1) rest

/-- Smallest member of a group, Python `min(g)` (groups are nonempty). -/
def minMember (g : List String) : String :=
  match g with
  | [] => ""
  | x :: xs => xs.foldl (fun m y => if pyStrLt y m then y else m) x

/-- Steps 2-3 of `merge_rings`: initialise Union-Find over the universe and
union `(members[0], members[i])` for the suspicious members of each cluster. -/
def clusterUF (all_clusters : List (List String))
    (suspicious : List String) : UnionFind :=
  let fuel := suspicious.length
  let uf0 : UnionFind :=
    ⟨suspicious.map (fun n => (n, n)), suspicious.map (fun n => (n, 0))⟩
  all_clusters.foldl (fun uf cluster =>
    let members := cluster.filter (· ∈ suspicious)
    match members with
    | [] => uf
    | m0 :: rest => rest.foldl (fun uf mi => ufUnion fuel uf m0 mi) uf) uf0

/-- Group ordering key of step 4: size DESC, then smallest member ASC. -/
def groupCmp (g1 g2 : List String) : Bool :=
  decide (g2.length < g1.length)
    || (decide (g1.length = g2.length) && pyStrLe (minMember g1) (minMember g2))

/-- Translation of `merge_rings`.  Each cluster list models one iteration
order of the detector's cluster set; unioning `(members[0], members[i])`
connects the same accounts whatever the order, so the resulting partition is
order-independent. -/
def mergeRings (all_clusters : List (List String))
    (scores : List (String × ℚ))
    (combined suppressed : List (String × List String))
    (settings : Settings) : List RingInfo :=
  let suspicious := ringUniverse scores settings
  if suspicious = [] then []
  else
    let uf := clusterUF all_clusters suspicious
    let groups := ufGroups suspicious.length uf suspicious
    let sorted_groups := sortBy groupCmp groups
    buildRingList scores combined suppressed 1 sorted_groups

/-! ## Output builder (`app/engine/output_builder.py`)

Modelled parts: `suspicious_accounts` (threshold filter, effective patterns,
ring lookup, deterministic sort), `fraud_rings`, and the summary counts.  The
graph-visualization block is independent of every claim and is omitted. -/

/-- Output row for one account (`SuspiciousAccount` response model). -/
structure SuspiciousAccount where
  account_id : String
  suspicion_score : ℚ
  detected_patterns : List String
  ring_id : String
deriving DecidableEq

/-- Summary block of the result (engine-derived fields). -/
structure ForensicSummary where
  total_accounts_analyzed : ℕ
  suspicious_accounts_flagged : ℕ
  fraud_rings_detected : ℕ
  total_rows : ℕ
  total_amount : ℚ
deriving DecidableEq

/-- Structured result of the pipeline (visualization graph omitted). -/
structure ForensicResult where
  suspicious_accounts : List SuspiciousAccount
  fraud_rings : List RingInfo
  summary : ForensicSummary
deriving DecidableEq

/-- Translation of `build_output` (minus the visualization block). -/
def buildOutput (scores : List (String × ℚ))
    (combined_flags suppressed_flags : List (String × List String))
    (rings : List RingInfo) (G : Graph String) (df : List (Row String))
    (settings : Settings) : ForensicResult :=
  let threshold := settings.suspicious_score_threshold
  let account_to_ring : List (String × String) :=
    rings.foldl (fun m ring =>
      ring.member_accounts.foldl (fun m acc => aset m acc ring.ring_id) m) []
  let pre : List SuspiciousAccount := scores.filterMap (fun kv =>
    if kv.2 < threshold then none
    else
      let removed := (alookup suppressed_flags kv.1).getD []
      some { account_id := kv.1
             suspicion_score := pyRound 2 kv.2
             detected_patterns :=
               sortBy pyStrLe (((alookup combined_flags kv.1).getD []).filter
                 (· ∉ removed))
             ring_id := (alookup account_to_ring kv.1).getD "NONE" })
  let suspicious_accounts := sortBy (fun a b =>
    decide (b.suspicion_score < a.suspicion_score)
      || (decide (a.suspicion_score = b.suspicion_score)
          && pyStrLe a.account_id b.account_id)) pre
  let fraud_rings := sortBy (fun r1 r2 =>
    decide (r2.risk_score < r1.risk_score)
      || (decide (r1.risk_score = r2.risk_score)
          && pyStrLe r1.ring_id r2.ring_id)) rings
  { suspicious_accounts := suspicious_accounts
    fraud_rings := fraud_rings
    summary :=
      { total_accounts_analyzed := G.nodes.length
        suspicious_accounts_flagged := suspicious_accounts.length
        fraud_rings_detected := fraud_rings.length
        total_rows := df.length
        total_amount := pyRound 2 (df.map (·.amount)).sum } }

/-! ## Shell-chain detector (`app/engine/algorithms/shell_chain.py`)

`math.log10` is transcendental; the scoring function takes it as an explicit
parameter `log10`, and every theorem below holds for all values of that
parameter.  The breadth-first loop `while queue:` terminates because paths
are simple and depth-capped; the model makes that explicit with a fuel
argument, and the theorems hold for every fuel. -/

/-- Chain cap `MAX_CHAINS` of `ShellChainAlgorithm.run`. -/
def MAX_CHAINS : ℕ := 10000

/-- Depth cap `MAX_DEPTH` of `ShellChainAlgorithm.run`. -/
def MAX_DEPTH : ℕ := 10

/-- Shell classification map of `run`: `is_shell.get(n, False)` — nodes of
`G` are shells iff `total_transactions <= max_txns`, anything else defaults
to `False`. -/
def isShellMap (G : Graph String) (max_txns : ℕ) (n : String) : Bool :=
  if n ∈ G.nodes then decide (G.totalTransactions n ≤ max_txns) else false

/-- Per-edge timestamp range, the `edge_ts` groupby of `run`
(`min`/`max` of `timestamp` per `(sender_id, receiver_id)` pair). -/
def edgeTs (df : List (Row String)) (u v : String) : Option (ℤ × ℤ) :=
  match (df.filter (fun r => r.sender = u ∧ r.receiver = v)).map (·.ts) with
  | [] => none
  | t :: ts => some (ts.foldl min t, ts.foldl max t)

/-- Node attribute read with default 1, as `_score_chain` does
(`G.nodes[n].get("total_transactions", 1)`). -/
def shellNodeTx (G : Graph String) (n : String) : ℕ :=
  match alookup G.nodeAttrs n with
  | some a => a.total_transactions
  | none => 1

/-- Translation of `ShellChainAlgorithm._score_chain`. -/
def scoreChain (log10 : ℚ → ℚ) (path : List String) (G : Graph String)
    (df : List (Row String)) (median_amount : ℚ)
    (min_hops max_txns : ℕ) : ℚ :=
  let hops := path.length - 1
  let f_depth : ℚ :=
    min 1 (((hops : ℚ) - (min_hops : ℚ)) / ((max 1 (10 - (min_hops : ℤ))) : ℚ))
  let chain_volume := ((path.zip path.tail).map (fun p =>
    if G.hasEdge p.1 p.2 then G.weight p.1 p.2 else 0)).sum
  let f_volume : ℚ :=
    if 0 < median_amount then
      min 1 (log10 (max 1 (chain_volume / median_amount)) / 4)
    else 0
  let shell_nodes := (path.drop 1).dropLast
  let f_isolation : ℚ :=
    if shell_nodes ≠ [] then
      let avg_txns : ℚ :=
        ((shell_nodes.map (fun n => (shellNodeTx G n : ℚ))).sum)
          / (shell_nodes.length : ℚ)
      max 0 (1 - (avg_txns - 1) / ((max 1 ((max_txns : ℤ) - 1)) : ℚ))
    else 1
  let all_ts := (path.zip path.tail).flatMap (fun p =>
    match edgeTs df p.1 p.2 with
    | none => []
    | some (tmin, tmax) => [tmin, tmax])
  let f_velocity : ℚ :=
    match all_ts with
    | t :: ts@(_ :: _) =>
      let span_hours : ℚ :=
        (((ts.foldl max t - ts.foldl min t) : ℤ) : ℚ) / 3600000000000
      1 - min 1 (span_hours / 168)
    | _ => 1/2
  pyRound 2 (20 * (4/10 * f_depth + 3/10 * f_volume
    + 2/10 * f_isolation + 1/10 * f_velocity))

/-- Mutable state threaded through the shell BFS: the algorithm result plus
the global `seen_paths` set (a list of path tuples, newest first). -/
structure ShellRunState where
  result : AlgorithmResult String
  seen : List (List String)
deriving DecidableEq

/-- Record one newly found chain (the body of the
`if new_path not in seen_paths:` block of `_bfs_from_source`). -/
def recordChain (log10 : ℚ → ℚ) (G : Graph String) (df : List (Row String))
    (median_amount : ℚ) (min_hops max_txns : ℕ)
    (new_path : List String) (st : ShellRunState) : ShellRunState :=
  let intermediates := (new_path.drop 1).dropLast
  let r1 := addFlag st.result (new_path.headD "") "shell_source"
  let r2 := addFlag r1 (new_path.getLastD "") "shell_source"
  let r3 := intermediates.foldl (fun r n => addFlag r n "shell_intermediary") r2
  let r4 := { r3 with clusters := r3.clusters ++ [new_path] }
  let score := scoreChain log10 new_path G df median_amount min_hops max_txns
  let r5 := new_path.foldl (fun r n => bumpScore r n score) r4
  ⟨r5, new_path :: st.seen⟩

/-- Neighbor handling of `_bfs_from_source` (the body of
`for neighbor in G.successors(current):`): returns the entries to enqueue
and the updated state.  `new_path[-1]` is `neighbor`. -/
def shellVisitNeighbor (log10 : ℚ → ℚ) (G : Graph String)
    (df : List (Row String)) (median_amount : ℚ) (min_hops max_txns : ℕ)
    (path visited : List String) (depth : ℕ)
    (acc : List (String × List String × List String) × ShellRunState)
    (neighbor : String) :
    List (String × List String × List String) × ShellRunState :=
  if neighbor ∈ visited then acc
  else
    let new_path := path ++ [neighbor]
    let new_visited := visited ++ [neighbor]
    let new_depth := depth + 1
    if isShellMap G max_txns neighbor then
      (acc.1 ++ [(neighbor, new_path, new_visited)], acc.2)
    else
      if min_hops ≤ new_depth then
        let intermediates := (new_path.drop 1).dropLast
        if intermediates.all (fun n => isShellMap G max_txns n) then
          (acc.1,
            if new_path ∈ acc.2.seen then acc.2
            else recordChain log10 G df median_amount min_hops max_txns
              new_path acc.2)
        else acc
      else acc

/-- Queue loop of `_bfs_from_source` (entries are
`(current_node, path, visited)`); the cap parameter of the source is absent
here because `_bfs_from_source` receives `max_chains` and never uses it. -/
def shellBfsAux (log10 : ℚ → ℚ) (G : Graph String) (df : List (Row String))
    (median_amount : ℚ) (min_hops max_txns : ℕ) :
    ℕ → List (String × List String × List String) → ShellRunState →
    ShellRunState
  | _, [], st => st
  | 0, _ :: _, st => st
  | fuel + 1, (current, path, visited) :: queue, st =>
    let depth := path.length - 1
    if MAX_DEPTH ≤ depth then
      shellBfsAux log10 G df median_amount min_hops max_txns fuel queue st
    else
      let step := (G.successors current).foldl
        (shellVisitNeighbor log10 G df median_amount min_hops max_txns
          path visited depth) ([], st)
      shellBfsAux log10 G df median_amount min_hops max_txns fuel
        (queue ++ step.1) step.2

/-- Translation of `_bfs_from_source`.  The unused `_max_chains` parameter
mirrors the source's `max_chains` argument, which the function receives but
never consults. -/
def shellBfsFromSource (log10 : ℚ → ℚ) (fuel : ℕ) (G : Graph String)
    (df : List (Row String)) (median_amount : ℚ) (min_hops max_txns : ℕ)
    (_max_chains : ℕ) (source : String) (st : ShellRunState) : ShellRunState :=
  shellBfsAux log10 G df median_amount min_hops max_txns fuel
    [(source, [source], [source])] st

/-- Source loop of `ShellChainAlgorithm.run`, with the `MAX_CHAINS` check
between sources (`if len(seen_paths) >= MAX_CHAINS: break`). -/
def shellRunSources (log10 : ℚ → ℚ) (fuel : ℕ) (G : Graph String)
    (df : List (Row String)) (median_amount : ℚ) (min_hops max_txns : ℕ) :
    List String → ShellRunState → ShellRunState
  | [], st => st
  | source :: rest, st =>
    if MAX_CHAINS ≤ st.seen.length then st
    else shellRunSources log10 fuel G df median_amount min_hops max_txns rest
      (shellBfsFromSource log10 fuel G df median_amount min_hops max_txns
        MAX_CHAINS source st)

/-- Translation of `ShellChainAlgorithm.run`. -/
def shellRun (log10 : ℚ → ℚ) (fuel : ℕ) (G : Graph String)
    (df : List (Row String)) (settings : Settings) : AlgorithmResult String :=
  let max_txns := settings.shell_max_total_transactions
  let min_hops := settings.shell_chain_min_hops
  let median_amount := median (df.map (·.amount))
  let non_shell_nodes := G.nodes.filter (fun n => !isShellMap G max_txns n)
  (shellRunSources log10 fuel G df median_amount min_hops max_txns
    non_shell_nodes ⟨AlgorithmResult.empty, []⟩).result

/-! ## Suppression (`app/engine/suppression.py`)

The coefficient of variation `std/mean` involves a square root.  Both code
and spec only *compare* CVs against positive thresholds, and for `mean > 0`
(amounts of a validated table are positive, intervals of a
timestamp-sorted list are nonnegative) `std/mean < t ↔ var < t²·mean²`,
which is exact in `ℚ`; the model therefore compares in squared form.
pandas `Series.std` uses `ddof=1`; on a single value it yields NaN, and every
NaN comparison is false — modelled by the `length < 2` guard below. -/

/-- Arithmetic mean of a list (`Series.mean`). -/
def listMean (xs : List ℚ) : ℚ := xs.sum / (xs.length : ℚ)

/-- Sample variance with `ddof=1`, the square of `Series.std`. -/
def sampleVar (xs : List ℚ) : ℚ :=
  let m := listMean xs
  (xs.map (fun x => (x - m) ^ 2)).sum / ((xs.length : ℚ) - 1)

/-- Outgoing rows of an account sorted by timestamp
(`df[df["sender_id"] == account].sort_values("timestamp")`). -/
def payrollOutgoing (account : String) (df : List (Row String)) :
    List (Row String) :=
  sortBy (fun r1 r2 => decide (r1.ts ≤ r2.ts)) (df.filter (·.sender = account))

/-- Consecutive timestamp differences in seconds
(`outgoing["timestamp"].diff().dropna().dt.total_seconds()`). -/
def payrollIntervals (account : String) (df : List (Row String)) : List ℚ :=
  let o := payrollOutgoing account df
  (o.zip o.tail).map (fun p => ((p.2.ts - p.1.ts : ℤ) : ℚ) / 1000000000)

/-- Translation of `_payroll_multiplier`.  CV comparisons are in squared
form (see the section comment); `std = NaN` (single interval) makes every
comparison false. -/
def payrollMultiplier (account : String) (df : List (Row String))
    (settings : Settings) : ℚ :=
  let outgoing := payrollOutgoing account df
  if outgoing.length < 2 then 1
  else
    let amounts := outgoing.map (·.amount)
    let mean_amt := listMean amounts
    if mean_amt = 0 then 1
    else
      let amount_var := sampleVar amounts
      let amountCvLt := fun (t : ℚ) => decide (amount_var < t ^ 2 * mean_amt ^ 2)
      let intervals := payrollIntervals account df
      if intervals.length = 0 then 1
      else
        let interval_mean := listMean intervals
        let intervalNaN := decide (intervals.length < 2)
        let interval_var := sampleVar intervals
        let intervalCvLt := fun (t : ℚ) =>
          if 0 < interval_mean then
            !intervalNaN && decide (interval_var < t ^ 2 * interval_mean ^ 2)
          else decide ((0 : ℚ) < t)
        let A := settings.payroll_amount_cv_threshold
        let I := settings.payroll_interval_cv_threshold
        if amountCvLt (A * (1/2)) && intervalCvLt (I * (1/2)) then 1/10
        else if amountCvLt A && intervalCvLt I then 1/5
        else if amountCvLt A || intervalCvLt I then 1/2
        else 1

/-- Translation of `_merchant_multiplier`.  `int(min_in * 0.6)` and
`int(min_in * 0.3)` truncate toward zero; for the nonnegative products here
that is the floor. -/
def merchantMultiplier (account : String) (G : Graph String)
    (settings : Settings) : ℚ :=
  let in_deg := (G.attr account).in_degree_count
  let out_deg := (G.attr account).out_degree_count
  let min_in := settings.merchant_min_in_degree
  if min_in * 2 ≤ in_deg ∧ out_deg = 0 then 1/10
  else if min_in ≤ in_deg ∧ out_deg = 0 then 1/5
  else if ((min_in : ℚ) * (6/10)).floor ≤ (in_deg : ℤ) ∧ out_deg ≤ 3 then 1/2
  else if ((min_in : ℚ) * (3/10)).floor ≤ (in_deg : ℤ) then 4/5
  else 1

/-- Display-suppression threshold `_DISPLAY_SUPPRESS_THRESHOLD`. -/
def DISPLAY_SUPPRESS_THRESHOLD : ℚ := 1/5

/-- Translation of `apply_suppression`: per flagged account, take the lower
of the applicable rule multipliers, record it when `< 1.0`, and hide the
triggering smurfing label when the rule multiplier is `<= 0.2`. -/
def applySuppression (combined_flags : List (String × List String))
    (G : Graph String) (df : List (Row String)) (settings : Settings) :
    List (String × List String) × List (String × ℚ) :=
  combined_flags.foldl (fun st kv =>
    let account := kv.1
    let patterns := kv.2
    let m1 : ℚ := 1
    let r1 : List String := []
    let mult_out := payrollMultiplier account df settings
    let m2 := if "smurfing_fan_out" ∈ patterns ∧ mult_out < m1 then mult_out else m1
    let r2 := if "smurfing_fan_out" ∈ patterns ∧ mult_out ≤ DISPLAY_SUPPRESS_THRESHOLD
      then r1 ++ ["smurfing_fan_out"] else r1
    let mult_in := merchantMultiplier account G settings
    let m3 := if "smurfing_fan_in" ∈ patterns ∧ mult_in < m2 then mult_in else m2
    let r3 := if "smurfing_fan_in" ∈ patterns ∧ mult_in ≤ DISPLAY_SUPPRESS_THRESHOLD
      then r2 ++ ["smurfing_fan_in"] else r2
    let multipliers := if m3 < 1 then aset st.2 account m3 else st.2
    let suppressed := if r3 ≠ [] then aset st.1 account r3 else st.1
    (suppressed, multipliers)) ([], [])

/-! ## Association-list facts shared by the theorems below -/

/-- Key-uniqueness: lists with `Nodup` keys bind each key to one value. -/
theorem nodup_keys_val_eq {α β : Type} [DecidableEq α] :
    ∀ (l : List (α × β)) {k : α} {v w : β},
      (l.map Prod.fst).Nodup → (k, v) ∈ l → (k, w) ∈ l → v = w := by
  intro l
  induction l with
  | nil => intro k v w _ h1 _; cases h1
  | cons hd tl ih =>
    intro k v w h h1 h2
    simp only [List.map_cons, List.nodup_cons] at h
    rcases List.mem_cons.mp h1 with h1 | h1 <;> rcases List.mem_cons.mp h2 with h2 | h2
    · rw [← h1] at h2; exact (congrArg Prod.snd h2).symm
    · exfalso; apply h.1; rw [← h1]
      simpa using List.mem_map_of_mem Prod.fst h2
    · exfalso; apply h.1; rw [← h2]
      simpa using List.mem_map_of_mem Prod.fst h1
    · exact ih h.2 h1 h2

/-- C3 counterexample: on `scores = {ACC_A: 12.0}` the account's final score
equals `suspicious_score_threshold = 12.0`, so it is *not* strictly greater,
yet `build_output` emits it (the code keeps every account with
`score >= threshold`); the claimed strict-`>` membership rule is false. -/
theorem c3_strict_threshold_counterexample :
    ((buildOutput [("ACC_A", 12)] [] [] [] (buildGraph []) []
        defaultSettings).suspicious_accounts.map (·.account_id) = ["ACC_A"])
    ∧ ¬ defaultSettings.suspicious_score_threshold < (12 : ℚ) := by
  constructor
  · rfl
  · decide

/-- C3 amended: an account with a computed final score appears in
`suspicious_accounts` iff its score is `>=` the threshold (the code skips only
`score < threshold`), and membership in the ring-merger universe uses the same
`>=` comparison — there is no strict/non-strict asymmetry. -/
theorem c3_threshold_semantics (scores : List (String × ℚ))
    (combined suppressed : List (String × List String)) (rings : List RingInfo)
    (G : Graph String) (df : List (Row String)) (settings : Settings)
    (acc : String) (s : ℚ)
    (hnodup : (scores.map Prod.fst).Nodup) (hmem : (acc, s) ∈ scores) :
    ((∃ sa ∈ (buildOutput scores combined suppressed rings G df
        settings).suspicious_accounts, sa.account_id = acc)
      ↔ settings.suspicious_score_threshold ≤ s)
    ∧ (acc ∈ ringUniverse scores settings
      ↔ settings.suspicious_score_threshold ≤ s) := by
  constructor
  · constructor
    · rintro ⟨sa, hsa, hid⟩
      simp only [buildOutput, mem_sortBy, List.mem_filterMap] at hsa
      rcases hsa with ⟨kv, hkv, hf⟩
      by_cases hlt : kv.2 < settings.suspicious_score_threshold
      · simp [hlt] at hf
      · simp only [hlt, if_false] at hf
        have hkey : kv.1 = acc := by
          have := congrArg SuspiciousAccount.account_id (Option.some.inj hf)
          simpa using hid ▸ this
        have : kv.2 = s := by
          have hkv2 : (acc, kv.2) ∈ scores := by
            have : kv = (kv.1, kv.2) := rfl
            rw [hkey] at this
            exact this ▸ hkv
          exact nodup_keys_val_eq scores hnodup hkv2 hmem
        exact le_of_not_lt (this ▸ hlt)
    · intro hle
      have hout : ∃ sa, sa ∈ (buildOutput scores combined suppressed rings G df
          settings).suspicious_accounts ∧ sa.account_id = acc := by
        simp only [buildOutput, mem_sortBy, List.mem_filterMap]
        constructor
        · constructor
          · exact ⟨(acc, s), hmem, by rw [if_neg (not_lt.mpr hle)]⟩
          · rfl
      exact hout
  · constructor
    · intro hin
      simp only [ringUniverse, List.mem_map, List.mem_filter] at hin
      rcases hin with ⟨kv, ⟨hkv, hge⟩, hkey⟩
      have : kv.2 = s := by
        have hkv2 : (acc, kv.2) ∈ scores := by
          have heq : kv = (kv.1, kv.2) := rfl
          rw [hkey] at heq
          exact heq ▸ hkv
        exact nodup_keys_val_eq scores hnodup hkv2 hmem
      rw [← this]
      exact of_decide_eq_true hge
    · intro hle
      simp only [ringUniverse, List.mem_map, List.mem_filter]
      exact ⟨(acc, s), ⟨hmem, decide_eq_true hle⟩, rfl⟩

/-- Overwriting a key makes the lookup return the new value. -/
theorem alookup_aset_self {α β : Type} [DecidableEq α] :
    ∀ (m : List (α × β)) (k : α) (v : β), alookup (aset m k v) k = some v := by
  intro m
  induction m with
  | nil => intro k v; simp [aset, alookup]
  | cons hd tl ih =>
    intro k v
    by_cases h : k = hd.1
    · simp [aset, alookup, h]
    · simp only [aset]
      rw [if_neg (by exact fun hh => h (by rw [hh]))]
      simp only [alookup]
      rw [if_neg h]
      exact ih k v

/-- Writing another key leaves a lookup unchanged. -/
theorem alookup_aset_ne {α β : Type} [DecidableEq α] {k k2 : α} (hne : k ≠ k2) :
    ∀ (m : List (α × β)) (v : β), alookup (aset m k2 v) k = alookup m k := by
  intro m
  induction m with
  | nil => intro v; simp [aset, alookup, hne]
  | cons hd tl ih =>
    intro v
    by_cases h : k2 = hd.1
    · simp only [aset, h, if_true]
      simp only [alookup]
      rw [if_neg (h ▸ hne), if_neg (h ▸ hne)]
    · simp only [aset, h, if_false]
      simp only [alookup]
      by_cases hk : k = hd.1
      · rw [if_pos hk, if_pos hk]
      · rw [if_neg hk, if_neg hk]
        exact ih v

/-- Folding ring members into the lookup map: a key outside the member list
is untouched. -/
theorem lookup_memberfold_not_mem {a rid : String} :
    ∀ (members : List String) (m : List (String × String)), a ∉ members →
      alookup (members.foldl (fun m acc => aset m acc rid) m) a = alookup m a := by
  intro members
  induction members with
  | nil => intro m _; rfl
  | cons x xs ih =>
    intro m hnm
    simp only [List.foldl_cons]
    rw [ih _ (fun hx => hnm (List.mem_cons_of_mem x hx))]
    exact alookup_aset_ne
      (fun hax => hnm (by rw [hax]; exact List.mem_cons_self x xs)) m rid

/-- Folding ring members into the lookup map: every member ends bound to the
ring id. -/
theorem lookup_memberfold_mem {a rid : String} :
    ∀ (members : List String) (m : List (String × String)), a ∈ members →
      alookup (members.foldl (fun m acc => aset m acc rid) m) a = some rid := by
  intro members
  induction members with
  | nil => intro m h; cases h
  | cons x xs ih =>
    intro m hm
    simp only [List.foldl_cons]
    by_cases hxs : a ∈ xs
    · exact ih _ hxs
    · rcases List.mem_cons.mp hm with h | h
      · rw [lookup_memberfold_not_mem xs _ hxs, h]
        exact alookup_aset_self m x rid
      · exact absurd h hxs

/-- The `account_to_ring` fold of `build_output`: an account in none of the
rings keeps its previous binding. -/
theorem lookup_ringfold_not_mem {a : String} :
    ∀ (rings : List RingInfo) (m : List (String × String)),
      (∀ R ∈ rings, a ∉ R.member_accounts) →
      alookup (rings.foldl (fun m ring =>
        ring.member_accounts.foldl (fun m acc => aset m acc ring.ring_id) m) m) a
        = alookup m a := by
  intro rings
  induction rings with
  | nil => intro m _; rfl
  | cons R0 rest ih =>
    intro m h
    simp only [List.foldl_cons]
    rw [ih _ (fun R hR => h R (List.mem_cons_of_mem R0 hR))]
    exact lookup_memberfold_not_mem _ _ (h R0 (List.mem_cons_self R0 rest))

/-- The `account_to_ring` fold of `build_output`: an account of a ring ends
bound to that ring's id, provided every ring containing it agrees on the id
(which ring disjointness guarantees). -/
theorem lookup_ringfold_mem {a : String} :
    ∀ (rings : List RingInfo) (m : List (String × String)) (R : RingInfo),
      R ∈ rings → a ∈ R.member_accounts →
      (∀ R2 ∈ rings, a ∈ R2.member_accounts → R2.ring_id = R.ring_id) →
      alookup (rings.foldl (fun m ring =>
        ring.member_accounts.foldl (fun m acc => aset m acc ring.ring_id) m) m) a
        = some R.ring_id := by
  intro rings
  induction rings with
  | nil => intro m R hR; cases hR
  | cons R0 rest ih =>
    intro m R hR hmem hagree
    simp only [List.foldl_cons]
    by_cases hrest : ∃ R2 ∈ rest, a ∈ R2.member_accounts
    · rcases hrest with ⟨R2, hR2, hmem2⟩
      have hid2 : R2.ring_id = R.ring_id :=
        hagree R2 (List.mem_cons_of_mem R0 hR2) hmem2
      rw [ih _ R2 hR2 hmem2 (fun R3 hR3 hm3 =>
        (hagree R3 (List.mem_cons_of_mem R0 hR3) hm3).trans hid2.symm)]
      rw [hid2]
    · push_neg at hrest
      rw [lookup_ringfold_not_mem rest _ hrest]
      rcases List.mem_cons.mp hR with h0 | h0
      · rw [lookup_memberfold_mem _ _ (h0 ▸ hmem)]
        rw [h0]
      · exact absurd hmem (hrest R h0)

/-- Structure of the step-4 ring loop: every produced ring comes from one of
the groups, with the group's members sorted, and only groups of size ≥ 2. -/
theorem mem_buildRingList {scores : List (String × ℚ)}
    {combined suppressed : List (String × List String)} :
    ∀ (gs : List (List String)) (c : ℕ) (R : RingInfo),
      R ∈ buildRingList scores combined suppressed c gs →
      ∃ g ∈ gs, R.member_accounts = sortBy pyStrLe g ∧ 2 ≤ g.length := by
  intro gs
  induction gs with
  | nil => intro c R hR; cases hR
  | cons g rest ih =>
    intro c R hR
    by_cases hlen : g.length < 2
    · simp only [buildRingList, hlen, if_true] at hR
      rcases ih c R hR with ⟨g2, hg2, h1, h2⟩
      exact ⟨g2, List.mem_cons_of_mem g hg2, h1, h2⟩
    · simp only [buildRingList, hlen, if_false] at hR
      rcases List.mem_cons.mp hR with h | h
      · exact ⟨g, List.mem_cons_self g rest, congrArg RingInfo.member_accounts h,
          le_of_not_lt hlen⟩
      · rcases ih (c + 1) R h with ⟨g2, hg2, h1, h2⟩
        exact ⟨g2, List.mem_cons_of_mem g hg2, h1, h2⟩

/-- Pairwise member-disjointness survives the step-4 ring loop. -/
theorem pairwise_disjoint_buildRingList {scores : List (String × ℚ)}
    {combined suppressed : List (String × List String)} :
    ∀ (gs : List (List String)) (c : ℕ),
      gs.Pairwise (fun g1 g2 => ∀ a, a ∈ g1 → a ∉ g2) →
      (buildRingList scores combined suppressed c gs).Pairwise
        (fun R1 R2 => ∀ a, a ∈ R1.member_accounts → a ∉ R2.member_accounts) := by
  intro gs
  induction gs with
  | nil => intro c _; exact List.Pairwise.nil
  | cons g rest ih =>
    intro c h
    rcases List.pairwise_cons.mp h with ⟨hhead, htail⟩
    by_cases hlen : g.length < 2
    · simp only [buildRingList, hlen, if_true]
      exact ih c htail
    · simp only [buildRingList, hlen, if_false]
      refine List.pairwise_cons.mpr ⟨?_, ih (c + 1) htail⟩
      intro R2 hR2 a ha
      rcases mem_buildRingList rest (c + 1) R2 hR2 with ⟨g2, hg2, hmem2, _⟩
      rw [hmem2, mem_sortBy]
      exact hhead g2 hg2 a (mem_sortBy.mp ha)

/-- The groups of `get_groups` are pairwise disjoint: each universe member
lies only in the group of its own root. -/
theorem pairwise_disjoint_ufGroups (fuel : ℕ) (uf : UnionFind)
    (univ : List String) :
    (ufGroups fuel uf univ).Pairwise
      (fun g1 g2 => ∀ a, a ∈ g1 → a ∉ g2) := by
  unfold ufGroups
  rw [List.pairwise_map]
  refine List.Pairwise.imp ?_ (List.nodup_dedup (univ.map (ufFind fuel uf)))
  intro r1 r2 hne a ha1 ha2
  rcases List.mem_filter.mp ha1 with ⟨_, h1⟩
  rcases List.mem_filter.mp ha2 with ⟨_, h2⟩
  exact hne ((of_decide_eq_true h1).symm.trans (of_decide_eq_true h2))

/-- Every group member belongs to the universe. -/
theorem mem_of_mem_ufGroups {fuel : ℕ} {uf : UnionFind} {univ : List String}
    {g : List String} (hg : g ∈ ufGroups fuel uf univ) {a : String}
    (ha : a ∈ g) : a ∈ univ := by
  unfold ufGroups at hg
  rcases List.mem_map.mp hg with ⟨r, _, hr⟩
  rw [← hr] at ha
  exact (List.mem_filter.mp ha).1

/-- C4: the rings produced by `merge_rings` have pairwise-disjoint member
sets (each account is in at most one ring: two rings sharing an account are
the same ring); every account of a ring `R` is emitted by `build_output` with
`ring_id = R.ring_id`; and every emitted account belonging to no ring carries
`ring_id = "NONE"`. -/
theorem c4_ring_partition_consistency
    (clusters : List (List String)) (scores : List (String × ℚ))
    (combined suppressed : List (String × List String))
    (G : Graph String) (df : List (Row String)) (settings : Settings) :
    (∀ R1 ∈ mergeRings clusters scores combined suppressed settings,
      ∀ R2 ∈ mergeRings clusters scores combined suppressed settings,
      ∀ a, a ∈ R1.member_accounts → a ∈ R2.member_accounts → R1 = R2)
    ∧ (∀ R ∈ mergeRings clusters scores combined suppressed settings,
        ∀ a ∈ R.member_accounts,
        ∃ sa ∈ (buildOutput scores combined suppressed
            (mergeRings clusters scores combined suppressed settings) G df
            settings).suspicious_accounts,
          sa.account_id = a ∧ sa.ring_id = R.ring_id)
    ∧ (∀ sa ∈ (buildOutput scores combined suppressed
          (mergeRings clusters scores combined suppressed settings) G df
          settings).suspicious_accounts,
        (∀ R ∈ mergeRings clusters scores combined suppressed settings,
          sa.account_id ∉ R.member_accounts) → sa.ring_id = "NONE") := by
  by_cases hempty : ringUniverse scores settings = []
  case pos =>
    have hrings : mergeRings clusters scores combined suppressed settings = [] := by
      unfold mergeRings
      rw [if_pos hempty]
    refine ⟨?_, ?_, ?_⟩
    · intro R1 hR1; rw [hrings] at hR1; cases hR1
    · intro R hR; rw [hrings] at hR; cases hR
    · intro sa hsa _
      simp only [buildOutput, hrings, mem_sortBy, List.mem_filterMap] at hsa
      rcases hsa with ⟨kv, _, hf⟩
      by_cases hlt : kv.2 < settings.suspicious_score_threshold
      · simp [hlt] at hf
      · simp only [hlt, if_false] at hf
        have := congrArg SuspiciousAccount.ring_id (Option.some.inj hf)
        simpa [alookup] using this.symm
  case neg =>
    have hrings : mergeRings clusters scores combined suppressed settings
        = buildRingList scores combined suppressed 1
            (sortBy groupCmp
              (ufGroups (ringUniverse scores settings).length
                (clusterUF clusters (ringUniverse scores settings))
                (ringUniverse scores settings))) := by
      simp only [mergeRings, if_neg hempty]
    have hsymm : ∀ (R1 R2 : RingInfo),
        (∀ a, a ∈ R1.member_accounts → a ∉ R2.member_accounts) →
        (∀ a, a ∈ R2.member_accounts → a ∉ R1.member_accounts) := by
      intro R1 R2 h a ha2 ha1
      exact h a ha1 ha2
    have hpair : (mergeRings clusters scores combined suppressed
        settings).Pairwise
        (fun R1 R2 => ∀ a, a ∈ R1.member_accounts → a ∉ R2.member_accounts) := by
      rw [hrings]
      refine pairwise_disjoint_buildRingList _ 1 ?_
      refine ((perm_sortBy groupCmp _).pairwise_iff ?_).mpr
        (pairwise_disjoint_ufGroups _ _ _)
      intro g1 g2 h a ha2 ha1
      exact h a ha1 ha2
    have hunique : ∀ R1 ∈ mergeRings clusters scores combined suppressed settings,
        ∀ R2 ∈ mergeRings clusters scores combined suppressed settings,
        ∀ a, a ∈ R1.member_accounts → a ∈ R2.member_accounts → R1 = R2 := by
      intro R1 hR1 R2 hR2 a ha1 ha2
      by_contra hne
      exact (hpair.forall (fun {x y} h => hsymm x y h) hR1 hR2 hne) a ha1 ha2
    refine ⟨hunique, ?_, ?_⟩
    · intro R hR a ha
      rcases mem_buildRingList _ 1 R (hrings ▸ hR) with ⟨g, hg, hmemEq, _⟩
      have hag : a ∈ g := mem_sortBy.mp (hmemEq ▸ ha)
      have hauniv : a ∈ ringUniverse scores settings :=
        mem_of_mem_ufGroups (mem_sortBy.mp hg) hag
      rcases List.mem_map.mp hauniv with ⟨kv, hkvf, hkva⟩
      rcases List.mem_filter.mp hkvf with ⟨hkv, hP⟩
      have hle : settings.suspicious_score_threshold ≤ kv.2 := of_decide_eq_true hP
      have hagree : ∀ R2 ∈ mergeRings clusters scores combined suppressed settings,
          a ∈ R2.member_accounts → R2.ring_id = R.ring_id := by
        intro R2 hR2 hm2
        rw [hunique R2 hR2 R hR a hm2 ha]
      have hlook : alookup
          ((mergeRings clusters scores combined suppressed settings).foldl
            (fun m ring => ring.member_accounts.foldl
              (fun m acc => aset m acc ring.ring_id) m) []) a
          = some R.ring_id :=
        lookup_ringfold_mem _ [] R hR ha hagree
      simp only [buildOutput, mem_sortBy, List.mem_filterMap]
      constructor
      · constructor
        · exact ⟨kv, hkv, by rw [if_neg (not_lt.mpr hle)]⟩
        · constructor
          · exact hkva
          · show (alookup _ kv.1).getD "NONE" = R.ring_id
            rw [hkva, hlook]
            rfl
    · intro sa hsa hnone
      simp only [buildOutput, mem_sortBy, List.mem_filterMap] at hsa
      rcases hsa with ⟨kv, _, hf⟩
      by_cases hlt : kv.2 < settings.suspicious_score_threshold
      · simp [hlt] at hf
      · simp only [hlt, if_false] at hf
        have hid := congrArg SuspiciousAccount.account_id (Option.some.inj hf)
        have hrid := congrArg SuspiciousAccount.ring_id (Option.some.inj hf)
        simp only at hid hrid
        have hnk : ∀ R ∈ mergeRings clusters scores combined suppressed settings,
            kv.1 ∉ R.member_accounts := by
          intro R hR
          rw [hid]
          exact hnone R hR
        rw [← hrid, lookup_ringfold_not_mem _ [] hnk]
        rfl

/-- Score updates leave the flag map untouched. -/
theorem bumpScore_flags {α : Type} [DecidableEq α] (r : AlgorithmResult α)
    (a : α) (s : ℚ) : (bumpScore r a s).account_flags = r.account_flags := by
  unfold bumpScore
  split <;> rfl

/-- Lookup in a list extended on the right by one binding. -/
theorem alookup_append_single {α β : Type} [DecidableEq α] :
    ∀ (l : List (α × β)) (a : α) (v : β) (n : α),
      alookup (l ++ [(a, v)]) n =
        match alookup l n with
        | some w => some w
        | none => if n = a then some v else none := by
  intro l a v n
  induction l with
  | nil => simp [alookup]
  | cons hd tl ih =>
    obtain ⟨k1, v1⟩ := hd
    simp only [List.cons_append, alookup]
    by_cases h : n = k1
    · simp [h]
    · simp only [h, if_false]
      exact ih

/-- Equation of `_add_flag` when the account has no flags yet. -/
theorem addFlag_eq_none {α : Type} [DecidableEq α] {r : AlgorithmResult α}
    {a : α} {p : String} (hl : alookup r.account_flags a = none) :
    addFlag r a p = { r with account_flags := r.account_flags ++ [(a, [p])] } := by
  unfold addFlag
  rw [hl]

/-- Equation of `_add_flag` when the pattern is already present. -/
theorem addFlag_eq_mem {α : Type} [DecidableEq α] {r : AlgorithmResult α}
    {a : α} {p : String} {fl : List String}
    (hl : alookup r.account_flags a = some fl) (hp : p ∈ fl) :
    addFlag r a p = r := by
  unfold addFlag
  rw [hl]
  exact if_pos hp

/-- Equation of `_add_flag` when the pattern is new for the account. -/
theorem addFlag_eq_new {α : Type} [DecidableEq α] {r : AlgorithmResult α}
    {a : α} {p : String} {fl : List String}
    (hl : alookup r.account_flags a = some fl) (hp : p ∉ fl) :
    addFlag r a p
      = { r with account_flags := aset r.account_flags a (fl ++ [p]) } := by
  unfold addFlag
  rw [hl]
  exact if_neg hp

/-- Flags after `_add_flag`: either the new pair or an existing flag. -/
theorem hasFlag_addFlag {α : Type} [DecidableEq α] {r : AlgorithmResult α}
    {a n : α} {p q : String}
    (h : hasFlag (addFlag r a p).account_flags n q) :
    (n = a ∧ q = p) ∨ hasFlag r.account_flags n q := by
  cases hl : alookup r.account_flags a with
  | none =>
    rw [addFlag_eq_none hl] at h
    unfold hasFlag at h ⊢
    rw [alookup_append_single] at h
    cases hn : alookup r.account_flags n with
    | some w =>
      rw [hn] at h
      exact Or.inr h
    | none =>
      rw [hn] at h
      by_cases hna : n = a
      · rw [if_pos hna] at h
        simp only [Option.getD_some, List.mem_singleton] at h
        exact Or.inl ⟨hna, h⟩
      · rw [if_neg hna] at h
        simp at h
  | some fl =>
    by_cases hp : p ∈ fl
    · rw [addFlag_eq_mem hl hp] at h
      exact Or.inr h
    · rw [addFlag_eq_new hl hp] at h
      unfold hasFlag at h ⊢
      by_cases hna : n = a
      · rw [hna, alookup_aset_self] at h
        simp only [Option.getD_some, List.mem_append, List.mem_singleton] at h
        rcases h with h | h
        · rw [hna, hl]
          exact Or.inr h
        · exact Or.inl ⟨hna, h⟩
      · rw [alookup_aset_ne hna] at h
        exact Or.inr h

/-- Flags after a fold of `_add_flag` with one label over a node list. -/
theorem hasFlag_foldl_addFlag {α : Type} [DecidableEq α] {lab q : String} :
    ∀ (l : List α) (r : AlgorithmResult α) (n : α),
      hasFlag ((l.foldl (fun r x => addFlag r x lab) r).account_flags) n q →
      (n ∈ l ∧ q = lab) ∨ hasFlag r.account_flags n q := by
  intro l
  induction l with
  | nil => intro r n h; exact Or.inr h
  | cons x xs ih =>
    intro r n h
    rcases ih _ n h with ⟨hm, hq⟩ | h2
    · exact Or.inl ⟨List.mem_cons_of_mem x hm, hq⟩
    · rcases hasFlag_addFlag h2 with ⟨hn, hq⟩ | h3
      · exact Or.inl ⟨by rw [hn]; exact List.mem_cons_self x xs, hq⟩
      · exact Or.inr h3

/-- A fold of score updates leaves the flag map untouched. -/
theorem foldl_bumpScore_flags {α : Type} [DecidableEq α] (s : ℚ) :
    ∀ (l : List α) (r : AlgorithmResult α),
      (l.foldl (fun r n => bumpScore r n s) r).account_flags
        = r.account_flags := by
  intro l
  induction l with
  | nil => intro r; rfl
  | cons x xs ih =>
    intro r
    rw [List.foldl_cons, ih, bumpScore_flags]

/-- Flags recorded by one chain: `shell_source` on the two endpoints,
`shell_intermediary` on the interior nodes, nothing else. -/
theorem hasFlag_recordChain {log10 : ℚ → ℚ} {G : Graph String}
    {df : List (Row String)} {med : ℚ} {mh mt : ℕ} {np : List String}
    {st : ShellRunState} {n : String} {q : String}
    (h : hasFlag (recordChain log10 G df med mh mt np st).result.account_flags
      n q) :
    (q = "shell_source" ∧ (n = np.headD "" ∨ n = np.getLastD ""))
    ∨ (q = "shell_intermediary" ∧ n ∈ (np.drop 1).dropLast)
    ∨ hasFlag st.result.account_flags n q := by
  unfold recordChain at h
  simp only at h
  rw [foldl_bumpScore_flags] at h
  rcases hasFlag_foldl_addFlag _ _ _ h with ⟨hm, hq⟩ | h2
  · exact Or.inr (Or.inl ⟨hq, hm⟩)
  · rcases hasFlag_addFlag h2 with ⟨hn, hq⟩ | h3
    · exact Or.inl ⟨hq, Or.inr hn⟩
    · rcases hasFlag_addFlag h3 with ⟨hn, hq⟩ | h4
      · exact Or.inl ⟨hq, Or.inl hn⟩
      · exact Or.inr (Or.inr h4)

/-- Invariant on the shell BFS flag map: intermediaries are shells, sources
are in-graph non-shells. -/
def ShellFlagsOK (G : Graph String) (mt : ℕ)
    (fl : List (String × List String)) : Prop :=
  (∀ n, hasFlag fl n "shell_intermediary" → isShellMap G mt n = true)
  ∧ (∀ n, hasFlag fl n "shell_source" →
      n ∈ G.nodes ∧ ¬ G.totalTransactions n ≤ mt)

/-- Invariant on a shell BFS queue entry: the path starts at an in-graph
non-shell node and is nonempty. -/
def ShellEntryOK (G : Graph String) (mt : ℕ)
    (e : String × List String × List String) : Prop :=
  e.2.1 ≠ [] ∧ e.2.1.headD "" ∈ G.nodes
    ∧ isShellMap G mt (e.2.1.headD "") = false

/-- In-graph non-shell nodes have more than `mt` transactions. -/
theorem not_shell_total {G : Graph String} {mt : ℕ} {n : String}
    (hn : n ∈ G.nodes) (h : isShellMap G mt n = false) :
    n ∈ G.nodes ∧ ¬ G.totalTransactions n ≤ mt := by
  refine ⟨hn, ?_⟩
  unfold isShellMap at h
  rw [if_pos hn] at h
  exact of_decide_eq_false h

/-- Head of a list extended on the right, for nonempty lists. -/
theorem headD_concat {α : Type} {l : List α} (h : l ≠ []) (x d : α) :
    (l ++ [x]).headD d = l.headD d := by
  cases l with
  | nil => exact absurd rfl h
  | cons a as => rfl

/-- One neighbor step of the shell BFS preserves both invariants. -/
theorem shellVisitNeighbor_invariant (log10 : ℚ → ℚ) (G : Graph String)
    (df : List (Row String)) (med : ℚ) (mh mt : ℕ)
    (path visited : List String) (depth : ℕ)
    (hpath : path ≠ [] ∧ path.headD "" ∈ G.nodes
      ∧ isShellMap G mt (path.headD "") = false)
    {v : String} (hv : v ∈ G.nodes)
    (acc : List (String × List String × List String) × ShellRunState)
    (hq : ∀ e ∈ acc.1, ShellEntryOK G mt e)
    (hf : ShellFlagsOK G mt acc.2.result.account_flags) :
    (∀ e ∈ (shellVisitNeighbor log10 G df med mh mt path visited depth
        acc v).1, ShellEntryOK G mt e)
    ∧ ShellFlagsOK G mt (shellVisitNeighbor log10 G df med mh mt path visited
        depth acc v).2.result.account_flags := by
  simp only [shellVisitNeighbor]
  by_cases h1 : v ∈ visited
  · rw [if_pos h1]
    exact ⟨hq, hf⟩
  · rw [if_neg h1]
    by_cases h2 : isShellMap G mt v = true
    · rw [if_pos h2]
      refine ⟨?_, hf⟩
      intro e he
      rcases List.mem_append.mp he with he | he
      · exact hq e he
      · rw [List.mem_singleton.mp he]
        refine ⟨by simp, ?_, ?_⟩
        · show (path ++ [v]).headD "" ∈ G.nodes
          rw [headD_concat hpath.1]
          exact hpath.2.1
        · show isShellMap G mt ((path ++ [v]).headD "") = false
          rw [headD_concat hpath.1]
          exact hpath.2.2
    · have h2' : isShellMap G mt v = false := by
        revert h2
        cases isShellMap G mt v <;> simp
      rw [if_neg h2]
      by_cases h3 : mh ≤ depth + 1
      · rw [if_pos h3]
        by_cases h4 : (((path ++ [v]).drop 1).dropLast).all
            (fun n => isShellMap G mt n) = true
        · rw [if_pos h4]
          refine ⟨hq, ?_⟩
          by_cases h5 : (path ++ [v]) ∈ acc.2.seen
          · show ShellFlagsOK G mt (if _ then acc.2
              else recordChain log10 G df med mh mt (path ++ [v])
                acc.2).result.account_flags
            rw [if_pos h5]
            exact hf
          · show ShellFlagsOK G mt (if _ then acc.2
              else recordChain log10 G df med mh mt (path ++ [v])
                acc.2).result.account_flags
            rw [if_neg h5]
            constructor
            · intro n hn
              rcases hasFlag_recordChain hn with ⟨hq', _⟩ | ⟨_, hm⟩ | h6
              · exact absurd hq' (by decide)
              · exact (List.all_eq_true.mp h4) n hm
              · exact hf.1 n h6
            · intro n hn
              rcases hasFlag_recordChain hn with ⟨_, hor⟩ | ⟨hq', _⟩ | h6
              · rcases hor with h | h
                · rw [h, headD_concat hpath.1]
                  exact not_shell_total hpath.2.1 hpath.2.2
                · rw [h, List.getLastD_concat]
                  exact not_shell_total hv h2'
              · exact absurd hq' (by decide)
              · exact hf.2 n h6
        · rw [if_neg h4]
          exact ⟨hq, hf⟩
      · rw [if_neg h3]
        exact ⟨hq, hf⟩

/-- The whole neighbor fold preserves both invariants. -/
theorem shellVisitFold_invariant {log10 : ℚ → ℚ} {G : Graph String}
    {df : List (Row String)} {med : ℚ} {mh mt : ℕ}
    {path visited : List String} {depth : ℕ}
    (hpath : path ≠ [] ∧ path.headD "" ∈ G.nodes
      ∧ isShellMap G mt (path.headD "") = false) :
    ∀ (ns : List String), (∀ v ∈ ns, v ∈ G.nodes) →
      ∀ (acc : List (String × List String × List String) × ShellRunState),
      (∀ e ∈ acc.1, ShellEntryOK G mt e) →
      ShellFlagsOK G mt acc.2.result.account_flags →
      (∀ e ∈ (ns.foldl (shellVisitNeighbor log10 G df med mh mt path visited
          depth) acc).1, ShellEntryOK G mt e)
      ∧ ShellFlagsOK G mt
          (ns.foldl (shellVisitNeighbor log10 G df med mh mt path visited
            depth) acc).2.result.account_flags := by
  intro ns
  induction ns with
  | nil => intro _ acc hq hf; exact ⟨hq, hf⟩
  | cons v vs ih =>
    intro hns acc hq hf
    simp only [List.foldl_cons]
    have step := shellVisitNeighbor_invariant log10 G df med mh mt path
      visited depth hpath (hns v (List.mem_cons_self v vs)) acc hq hf
    exact ih (fun u hu => hns u (List.mem_cons_of_mem v hu)) _ step.1 step.2

/-- The queue loop of the shell BFS preserves the flag invariant, for every
fuel. -/
theorem shellBfsAux_invariant (log10 : ℚ → ℚ) (G : Graph String)
    (df : List (Row String)) (med : ℚ) (mh mt : ℕ)
    (hsucc : ∀ u v, v ∈ G.successors u → v ∈ G.nodes) :
    ∀ (fuel : ℕ) (queue : List (String × List String × List String))
      (st : ShellRunState),
      (∀ e ∈ queue, ShellEntryOK G mt e) →
      ShellFlagsOK G mt st.result.account_flags →
      ShellFlagsOK G mt
        (shellBfsAux log10 G df med mh mt fuel queue st).result.account_flags := by
  intro fuel
  induction fuel with
  | zero =>
    intro queue st _ hf
    cases queue with
    | nil => exact hf
    | cons e q => exact hf
  | succ f ih =>
    intro queue st hq hf
    cases queue with
    | nil => exact hf
    | cons e q =>
      obtain ⟨current, path, visited⟩ := e
      simp only [shellBfsAux]
      by_cases hd : MAX_DEPTH ≤ path.length - 1
      · rw [if_pos hd]
        exact ih q st (fun e2 he => hq e2 (List.mem_cons_of_mem _ he)) hf
      · rw [if_neg hd]
        have hentry := hq _ (List.mem_cons_self _ q)
        have hfold := @shellVisitFold_invariant log10 G df med mh mt path
          visited (path.length - 1) hentry
          (G.successors current) (fun v hv => hsucc current v hv)
          ([], st) (fun e2 he => absurd he (List.not_mem_nil e2)) hf
        refine ih _ _ ?_ hfold.2
        intro e2 he
        rcases List.mem_append.mp he with he | he
        · exact hq e2 (List.mem_cons_of_mem _ he)
        · exact hfold.1 e2 he

/-- The source loop of `run` preserves the flag invariant. -/
theorem shellRunSources_invariant (log10 : ℚ → ℚ) (fuel : ℕ)
    (G : Graph String) (df : List (Row String)) (med : ℚ) (mh mt : ℕ)
    (hsucc : ∀ u v, v ∈ G.successors u → v ∈ G.nodes) :
    ∀ (sources : List String),
      (∀ s ∈ sources, s ∈ G.nodes ∧ isShellMap G mt s = false) →
      ∀ (st : ShellRunState), ShellFlagsOK G mt st.result.account_flags →
      ShellFlagsOK G mt (shellRunSources log10 fuel G df med mh mt sources
        st).result.account_flags := by
  intro sources
  induction sources with
  | nil => intro _ st hf; exact hf
  | cons s rest ih =>
    intro hs st hf
    simp only [shellRunSources]
    by_cases hcap : MAX_CHAINS ≤ st.seen.length
    · rw [if_pos hcap]
      exact hf
    · rw [if_neg hcap]
      refine ih (fun u hu => hs u (List.mem_cons_of_mem s hu)) _ ?_
      unfold shellBfsFromSource
      refine shellBfsAux_invariant log10 G df med mh mt hsucc fuel _ st ?_ hf
      intro e he
      rw [List.mem_singleton] at he
      subst he
      exact ⟨by simp, (hs s (List.mem_cons_self s rest)).1,
        (hs s (List.mem_cons_self s rest)).2⟩

/-- Edges built by `build_graph` point at graph nodes. -/
theorem buildGraph_successors_subset {df : List (Row String)} :
    ∀ u v, v ∈ (buildGraph df).successors u → v ∈ (buildGraph df).nodes := by
  intro u v h
  unfold Graph.successors at h
  rcases List.mem_map.mp h with ⟨e, he, hv⟩
  have he2 := List.mem_of_mem_filter he
  unfold buildGraph at he2 ⊢
  simp only at he2 ⊢
  rcases List.mem_map.mp he2 with ⟨p, hp, hep⟩
  have hp2 := List.mem_dedup.mp hp
  rcases List.mem_map.mp hp2 with ⟨r, hr, hpr⟩
  rw [List.mem_dedup, List.mem_append]
  right
  rw [List.mem_map]
  refine ⟨r, hr, ?_⟩
  have hpe : e.1 = p := by rw [← hep]
  rw [← hv, hpe, ← hpr]

/-- C10: every account the shell-chain detector flags `shell_intermediary`
is a shell (`total_transactions <= shell_max_total_transactions`), and every
account it flags `shell_source` is a non-shell
(`total_transactions > shell_max_total_transactions`), on the graph built
from the transaction table — for every table, settings, `log10` model and
fuel. -/
theorem c10_shell_flag_type_correctness (df : List (Row String))
    (settings : Settings) (log10 : ℚ → ℚ) (fuel : ℕ) (n : String) :
    (hasFlag (shellRun log10 fuel (buildGraph df) df settings).account_flags
        n "shell_intermediary" →
      (buildGraph df).totalTransactions n
        ≤ settings.shell_max_total_transactions)
    ∧ (hasFlag (shellRun log10 fuel (buildGraph df) df settings).account_flags
        n "shell_source" →
      settings.shell_max_total_transactions
        < (buildGraph df).totalTransactions n) := by
  have hfinal : ShellFlagsOK (buildGraph df)
      settings.shell_max_total_transactions
      (shellRun log10 fuel (buildGraph df) df settings).account_flags := by
    unfold shellRun
    refine shellRunSources_invariant log10 fuel (buildGraph df) df _ _ _
      buildGraph_successors_subset _ ?_ _ ?_
    · intro s hs
      rcases List.mem_filter.mp hs with ⟨h1, h2⟩
      refine ⟨h1, ?_⟩
      cases hb : isShellMap (buildGraph df)
          settings.shell_max_total_transactions s with
      | false => rfl
      | true => rw [hb] at h2; exact absurd h2 (by decide)
    · constructor <;> intro m hm <;> simp [hasFlag, alookup,
        AlgorithmResult.empty] at hm
  constructor
  · intro h
    have h2 := hfinal.1 n h
    unfold isShellMap at h2
    by_cases hn : n ∈ (buildGraph df).nodes
    · rw [if_pos hn] at h2
      exact of_decide_eq_true h2
    · rw [if_neg hn] at h2
      exact absurd h2 (by decide)
  · intro h
    exact Nat.lt_of_not_le (hfinal.2 n h).2

set_option maxRecDepth 40000 in
set_option maxRecDepth 40000 in
/-- C10 witness: the chain scenario `R1 → S1 → S2 → R2` from the spec's
scenario 6 — `S1` is flagged `shell_intermediary` and is a shell, `R1` is
flagged `shell_source` and is a non-shell. -/
theorem c10_shell_flag_type_correctness_witness :
    (hasFlag (shellRun (fun _ => 0) 1000
        (buildGraph [⟨"R1", "S1", 100, 0⟩, ⟨"S1", "S2", 100, 1⟩,
          ⟨"S2", "R2", 100, 2⟩, ⟨"R1", "X1", 1, 3⟩, ⟨"R1", "X2", 1, 4⟩,
          ⟨"R1", "X3", 1, 5⟩, ⟨"Y1", "R2", 1, 6⟩, ⟨"Y2", "R2", 1, 7⟩,
          ⟨"Y3", "R2", 1, 8⟩])
        [⟨"R1", "S1", 100, 0⟩, ⟨"S1", "S2", 100, 1⟩,
          ⟨"S2", "R2", 100, 2⟩, ⟨"R1", "X1", 1, 3⟩, ⟨"R1", "X2", 1, 4⟩,
          ⟨"R1", "X3", 1, 5⟩, ⟨"Y1", "R2", 1, 6⟩, ⟨"Y2", "R2", 1, 7⟩,
          ⟨"Y3", "R2", 1, 8⟩] defaultSettings).account_flags
      "S1" "shell_intermediary"
    ∧ (buildGraph [⟨"R1", "S1", 100, 0⟩, ⟨"S1", "S2", 100, 1⟩,
          ⟨"S2", "R2", 100, 2⟩, ⟨"R1", "X1", 1, 3⟩, ⟨"R1", "X2", 1, 4⟩,
          ⟨"R1", "X3", 1, 5⟩, ⟨"Y1", "R2", 1, 6⟩, ⟨"Y2", "R2", 1, 7⟩,
          ⟨"Y3", "R2", 1, 8⟩]).totalTransactions "S1"
        ≤ defaultSettings.shell_max_total_transactions)
    ∧ (defaultSettings.shell_max_total_transactions
        < (buildGraph [⟨"R1", "S1", 100, 0⟩, ⟨"S1", "S2", 100, 1⟩,
          ⟨"S2", "R2", 100, 2⟩, ⟨"R1", "X1", 1, 3⟩, ⟨"R1", "X2", 1, 4⟩,
          ⟨"R1", "X3", 1, 5⟩, ⟨"Y1", "R2", 1, 6⟩, ⟨"Y2", "R2", 1, 7⟩,
          ⟨"Y3", "R2", 1, 8⟩]).totalTransactions "R1") :=
  ⟨⟨by decide,
    (c10_shell_flag_type_correctness [⟨"R1", "S1", 100, 0⟩,
      ⟨"S1", "S2", 100, 1⟩, ⟨"S2", "R2", 100, 2⟩, ⟨"R1", "X1", 1, 3⟩,
      ⟨"R1", "X2", 1, 4⟩, ⟨"R1", "X3", 1, 5⟩, ⟨"Y1", "R2", 1, 6⟩,
      ⟨"Y2", "R2", 1, 7⟩, ⟨"Y3", "R2", 1, 8⟩] defaultSettings (fun _ => 0)
      1000 "S1").1 (by decide)⟩,
   (c10_shell_flag_type_correctness [⟨"R1", "S1", 100, 0⟩,
      ⟨"S1", "S2", 100, 1⟩, ⟨"S2", "R2", 100, 2⟩, ⟨"R1", "X1", 1, 3⟩,
      ⟨"R1", "X2", 1, 4⟩, ⟨"R1", "X3", 1, 5⟩, ⟨"Y1", "R2", 1, 6⟩,
      ⟨"Y2", "R2", 1, 7⟩, ⟨"Y3", "R2", 1, 8⟩] defaultSettings (fun _ => 0)
      1000 "R1").2 (by decide)⟩

/-- Complete characterisation of the flags after `_add_flag`. -/
theorem hasFlag_addFlag_iff {α : Type} [DecidableEq α] {r : AlgorithmResult α}
    {a n : α} {p q : String} :
    hasFlag (addFlag r a p).account_flags n q
      ↔ ((n = a ∧ q = p) ∨ hasFlag r.account_flags n q) := by
  constructor
  · exact hasFlag_addFlag
  · intro h
    cases hl : alookup r.account_flags a with
    | none =>
      rw [addFlag_eq_none hl]
      unfold hasFlag at h ⊢
      rw [alookup_append_single]
      cases hn : alookup r.account_flags n with
      | some w =>
        rcases h with ⟨hna, _⟩ | h
        · rw [hna] at hn
          rw [hn] at hl
          cases hl
        · rw [hn] at h
          exact h
      | none =>
        rcases h with ⟨hna, hq⟩ | h
        · show q ∈ (if n = a then some [p] else none).getD []
          rw [if_pos hna, hq]
          simp
        · rw [hn] at h
          simp at h
    | some fl =>
      by_cases hp : p ∈ fl
      · rw [addFlag_eq_mem hl hp]
        rcases h with ⟨hna, hq⟩ | h
        · unfold hasFlag
          rw [hna, hl, hq]
          simpa using hp
        · exact h
      · rw [addFlag_eq_new hl hp]
        unfold hasFlag at h ⊢
        by_cases hna : n = a
        · rw [hna, alookup_aset_self]
          rcases h with ⟨_, hq⟩ | h
          · simp [hq]
          · rw [hna, hl] at h
            simp only [Option.getD_some] at h
            simp [h]
        · rw [alookup_aset_ne hna]
          rcases h with ⟨hna2, _⟩ | h
          · exact absurd hna2 hna
          · exact h

/-- Adding a flag never changes the score map. -/
theorem addFlag_scores {α : Type} [DecidableEq α] (r : AlgorithmResult α)
    (a : α) (p : String) :
    (addFlag r a p).account_scores = r.account_scores := by
  cases hl : alookup r.account_flags a with
  | none => rw [addFlag_eq_none hl]
  | some fl =>
    by_cases hp : p ∈ fl
    · rw [addFlag_eq_mem hl hp]
    · rw [addFlag_eq_new hl hp]

/-- Score lookup after a max-update at another key. -/
theorem bumpScore_scores_ne {α : Type} [DecidableEq α] {r : AlgorithmResult α}
    {a n : α} (hna : n ≠ a) (s : ℚ) :
    alookup (bumpScore r a s).account_scores n = alookup r.account_scores n := by
  unfold bumpScore
  split
  · exact alookup_aset_ne hna r.account_scores s
  · rfl

/-- Score lookup after a max-update at the same key. -/
theorem bumpScore_scores_self {α : Type} [DecidableEq α]
    (r : AlgorithmResult α) (a : α) (s : ℚ) :
    alookup (bumpScore r a s).account_scores a
      = if (alookup r.account_scores a).getD 0 < s then some s
        else alookup r.account_scores a := by
  unfold bumpScore
  by_cases h : (alookup r.account_scores a).getD 0 < s
  · rw [if_pos h, if_pos h]
    exact alookup_aset_self r.account_scores a s
  · rw [if_neg h, if_neg h]

/-! ## Velocity detector (`app/engine/algorithms/velocity.py`)

The claims under test concern `_detect_velocity_spike`; it is embedded below
over the per-sender timestamp groups exactly as the source computes them
(`df.sort_values("timestamp")` then `groupby("sender_id", sort=False)`).
`np.searchsorted` on a sorted array returns the first index whose element is
`>=` (side="left") or `>` (side="right") the probe; the model uses the
equivalent `findIdx` on the sorted list. -/

/-- Transaction table sorted by timestamp (`df.sort_values("timestamp")`). -/
def dfSortedByTs {α : Type} (df : List (Row α)) : List (Row α) :=
  sortBy (fun r1 r2 => decide (r1.ts ≤ r2.ts)) df

/-- Group keys of `groupby("sender_id", sort=False)`: senders in first-
appearance order of the sorted table. -/
def dfSenders {α : Type} [DecidableEq α] (df : List (Row α)) : List α :=
  ((dfSortedByTs df).map (·.sender)).dedup

/-- One sender's group rows, in sorted-table order. -/
def senderGroup {α : Type} [DecidableEq α] (df : List (Row α)) (s : α) :
    List (Row α) :=
  (dfSortedByTs df).filter (·.sender = s)

/-- Model of `np.searchsorted(ts, x, side="left")` on a sorted list. -/
def searchsortedLeft (ts : List ℤ) (x : ℤ) : ℕ :=
  ts.findIdx (fun t => decide (x ≤ t))

/-- Model of `np.searchsorted(ts, x, side="right")` on a sorted list. -/
def searchsortedRight (ts : List ℤ) (x : ℤ) : ℕ :=
  ts.findIdx (fun t => decide (x < t))

/-- Spike window in nanoseconds
(`pd.Timedelta(days=velocity_spike_window_days)` as int64 ns). -/
def spikeWindowNs (settings : Settings) : ℤ :=
  (settings.velocity_spike_window_days : ℤ) * 86400000000000

/-- Body of the `_detect_velocity_spike` per-sender loop. -/
def spikeGroupStep (settings : Settings) (r : AlgorithmResult String)
    (sender : String) (ts : List ℤ) : AlgorithmResult String :=
  if ts.length < 2 then r
  else
    let window_ns := spikeWindowNs settings
    let latest := ts.getLastD 0
    let current_start := latest - window_ns
    let current_count := ts.length - searchsortedLeft ts current_start
    let prev_lo := searchsortedLeft ts (current_start - window_ns)
    let prev_hi := searchsortedLeft ts current_start
    let prev_count := prev_hi - prev_lo
    if prev_count = 0 then r
    else
      let ratio : ℚ := (current_count : ℚ) / (prev_count : ℚ)
      if settings.velocity_spike_ratio ≤ ratio then
        let f_ratio := min 1 ((ratio - settings.velocity_spike_ratio)
          / settings.velocity_spike_ratio)
        let score := pyRound 2 (15 * f_ratio)
        bumpScore (addFlag r sender "velocity_spike") sender score
      else r

/-- Translation of `VelocityAlgorithm._detect_velocity_spike`: the loop over
the per-sender groups. -/
def detectVelocitySpike (df : List (Row String)) (settings : Settings)
    (r : AlgorithmResult String) : AlgorithmResult String :=
  (dfSenders df).foldl (fun r s =>
    spikeGroupStep settings r s ((senderGroup df s).map (·.ts))) r

/-- Rounding a nonnegative rational stays nonnegative. -/
theorem pyRound_nonneg {n : ℕ} {x : ℚ} (hx : 0 ≤ x) : 0 ≤ pyRound n x := by
  unfold pyRound roundHalfEven
  have hy : (0 : ℚ) ≤ x * (10 : ℚ) ^ n := by positivity
  have hnum : 0 ≤ (x * (10 : ℚ) ^ n).num := Rat.num_nonneg.mpr hy
  have hf : (0 : ℤ) ≤ Int.fdiv (x * (10 : ℚ) ^ n).num (x * (10 : ℚ) ^ n).den :=
    Int.fdiv_nonneg hnum (Int.ofNat_nonneg _)
  have hz : (0 : ℤ) ≤ (if (x * 10 ^ n) - (Int.fdiv (x * (10 : ℚ) ^ n).num
      (x * (10 : ℚ) ^ n).den : ℤ) < 1/2 then
        Int.fdiv (x * (10 : ℚ) ^ n).num (x * (10 : ℚ) ^ n).den
      else if 1/2 < (x * 10 ^ n) - (Int.fdiv (x * (10 : ℚ) ^ n).num
          (x * (10 : ℚ) ^ n).den : ℤ) then
        Int.fdiv (x * (10 : ℚ) ^ n).num (x * (10 : ℚ) ^ n).den + 1
      else if Int.fdiv (x * (10 : ℚ) ^ n).num (x * (10 : ℚ) ^ n).den % 2 = 0
        then Int.fdiv (x * (10 : ℚ) ^ n).num (x * (10 : ℚ) ^ n).den
      else Int.fdiv (x * (10 : ℚ) ^ n).num (x * (10 : ℚ) ^ n).den + 1) := by
    split
    · exact hf
    · split
      · omega
      · split
        · exact hf
        · omega
  have h10 : (0 : ℚ) < (10 : ℚ) ^ n := by positivity
  refine div_nonneg ?_ (le_of_lt h10)
  exact_mod_cast hz

/-- A step for another sender's group leaves this sender's flags alone. -/
theorem spikeGroupStep_other_flag {settings : Settings}
    {r : AlgorithmResult String} {u s : String} {tsu : List ℤ} {q : String}
    (hne : s ≠ u) :
    (hasFlag (spikeGroupStep settings r u tsu).account_flags s q
      ↔ hasFlag r.account_flags s q) := by
  simp only [spikeGroupStep]
  split
  · exact Iff.rfl
  · split
    · exact Iff.rfl
    · split
      · rw [hasFlag]
        rw [bumpScore_flags]
        rw [← hasFlag]
        rw [hasFlag_addFlag_iff]
        constructor
        · intro h
          rcases h with ⟨h1, _⟩ | h
          · exact absurd h1 hne
          · exact h
        · exact Or.inr
      · exact Iff.rfl

/-- A step for another sender's group leaves this sender's score alone. -/
theorem spikeGroupStep_other_score {settings : Settings}
    {r : AlgorithmResult String} {u s : String} {tsu : List ℤ}
    (hne : s ≠ u) :
    alookup (spikeGroupStep settings r u tsu).account_scores s
      = alookup r.account_scores s := by
  simp only [spikeGroupStep]
  split
  · rfl
  · split
    · rfl
    · split
      · rw [bumpScore_scores_ne hne, addFlag_scores]
      · rfl

/-- Spike condition of the *code* on one group's timestamp list: at least 2
sends, a nonzero previous-window count, and a ratio at or above the
threshold — with the code's windows `[latest - w, latest]` (closed left) and
`[latest - 2w, latest - w)` (open right). -/
def spikeTriggered (settings : Settings) (tsu : List ℤ) : Prop :=
  2 ≤ tsu.length
  ∧ 0 < searchsortedLeft tsu (tsu.getLastD 0 - spikeWindowNs settings)
      - searchsortedLeft tsu (tsu.getLastD 0 - spikeWindowNs settings - spikeWindowNs settings)
  ∧ settings.velocity_spike_ratio ≤
      ((tsu.length - searchsortedLeft tsu (tsu.getLastD 0
        - spikeWindowNs settings) : ℕ) : ℚ)
      / ((searchsortedLeft tsu (tsu.getLastD 0 - spikeWindowNs settings)
        - searchsortedLeft tsu (tsu.getLastD 0
          - spikeWindowNs settings - spikeWindowNs settings) : ℕ) : ℚ)

instance (settings : Settings) (tsu : List ℤ) :
    Decidable (spikeTriggered settings tsu) := by
  unfold spikeTriggered
  infer_instance

/-- Sub-score the code assigns when the spike rule fires. -/
def spikeScore (settings : Settings) (tsu : List ℤ) : ℚ :=
  pyRound 2 (15 * min 1
    ((((tsu.length - searchsortedLeft tsu (tsu.getLastD 0
        - spikeWindowNs settings) : ℕ) : ℚ)
      / ((searchsortedLeft tsu (tsu.getLastD 0 - spikeWindowNs settings)
        - searchsortedLeft tsu (tsu.getLastD 0
          - spikeWindowNs settings - spikeWindowNs settings) : ℕ) : ℚ)
      - settings.velocity_spike_ratio) / settings.velocity_spike_ratio))

/-- The own-group step flags the sender iff the spike condition holds (or
the flag was already there). -/
theorem spikeGroupStep_self_flag {settings : Settings}
    {r : AlgorithmResult String} {s : String} {tsu : List ℤ} :
    (hasFlag (spikeGroupStep settings r s tsu).account_flags s
        "velocity_spike"
      ↔ spikeTriggered settings tsu
        ∨ hasFlag r.account_flags s "velocity_spike") := by
  simp only [spikeGroupStep, spikeTriggered]
  by_cases h1 : tsu.length < 2
  · rw [if_pos h1]
    constructor
    · exact Or.inr
    · intro h
      rcases h with ⟨h2, _⟩ | h
      · omega
      · exact h
  · rw [if_neg h1]
    by_cases h2 : searchsortedLeft tsu (tsu.getLastD 0 - spikeWindowNs settings)
        - searchsortedLeft tsu (tsu.getLastD 0 - spikeWindowNs settings - spikeWindowNs settings) = 0
    · rw [if_pos h2]
      constructor
      · exact Or.inr
      · intro h
        rcases h with ⟨_, h3, _⟩ | h
        · omega
        · exact h
    · rw [if_neg h2]
      by_cases h3 : settings.velocity_spike_ratio ≤
          ((tsu.length - searchsortedLeft tsu (tsu.getLastD 0
            - spikeWindowNs settings) : ℕ) : ℚ)
          / ((searchsortedLeft tsu (tsu.getLastD 0 - spikeWindowNs settings)
            - searchsortedLeft tsu (tsu.getLastD 0
              - spikeWindowNs settings - spikeWindowNs settings) : ℕ) : ℚ)
      · rw [if_pos h3]
        rw [hasFlag, bumpScore_flags, ← hasFlag, hasFlag_addFlag_iff]
        constructor
        · intro h
          rcases h with _ | h
          · exact Or.inl ⟨by omega, by omega, h3⟩
          · exact Or.inr h
        · intro _
          exact Or.inl ⟨rfl, rfl⟩
      · rw [if_neg h3]
        constructor
        · exact Or.inr
        · intro h
          rcases h with ⟨_, _, h4⟩ | h
          · exact absurd h4 h3
          · exact h

/-- Helper: the spike score formula is nonnegative once the rule fired.  -/
theorem spike_formula_nonneg {t ratio : ℚ} (hpos : 0 < t) (hle : t ≤ ratio) :
    0 ≤ pyRound 2 (15 * min 1 ((ratio - t) / t)) := by
  refine pyRound_nonneg ?_
  have hdiv : 0 ≤ (ratio - t) / t :=
    div_nonneg (by linarith) (le_of_lt hpos)
  have hmin : 0 ≤ min (1 : ℚ) ((ratio - t) / t) :=
    le_min (by norm_num) hdiv
  linarith

/-- The own-group step, when it fires on a sender with no previous score,
stores exactly the spike sub-score (`get` default 0 view). -/
theorem spikeGroupStep_self_score {settings : Settings}
    {r : AlgorithmResult String} {s : String} {tsu : List ℤ}
    (hpos : 0 < settings.velocity_spike_ratio)
    (htrig : spikeTriggered settings tsu)
    (hr : alookup r.account_scores s = none) :
    (alookup (spikeGroupStep settings r s tsu).account_scores s).getD 0
      = spikeScore settings tsu := by
  obtain ⟨h1, h2, h3⟩ := htrig
  simp only [spikeGroupStep]
  rw [if_neg (by omega), if_neg (by omega), if_pos h3]
  rw [bumpScore_scores_self, addFlag_scores, hr]
  split
  · rfl
  · rename_i hcond
    have h0 : ¬ (0 : ℚ) < spikeScore settings tsu := hcond
    have hge : 0 ≤ spikeScore settings tsu := spike_formula_nonneg hpos h3
    have hz : spikeScore settings tsu = 0 := le_antisymm (not_lt.mp h0) hge
    show (0 : ℚ) = spikeScore settings tsu
    rw [hz]

/-- Steps of other senders' groups preserve this sender's flags. -/
theorem spikeFold_other_flag {settings : Settings} {df : List (Row String)}
    {s q : String} :
    ∀ (us : List String), s ∉ us → ∀ (r : AlgorithmResult String),
      (hasFlag ((us.foldl (fun r u =>
          spikeGroupStep settings r u ((senderGroup df u).map (·.ts)))
          r)).account_flags s q
        ↔ hasFlag r.account_flags s q) := by
  intro us
  induction us with
  | nil => intro _ r; exact Iff.rfl
  | cons u rest ih =>
    intro hs r
    simp only [List.foldl_cons]
    rw [ih (fun h => hs (List.mem_cons_of_mem u h)) _]
    exact spikeGroupStep_other_flag
      (fun he => hs (by rw [he]; exact List.mem_cons_self u rest))

/-- Steps of other senders' groups preserve this sender's score. -/
theorem spikeFold_other_score {settings : Settings} {df : List (Row String)}
    {s : String} :
    ∀ (us : List String), s ∉ us → ∀ (r : AlgorithmResult String),
      alookup ((us.foldl (fun r u =>
          spikeGroupStep settings r u ((senderGroup df u).map (·.ts)))
          r)).account_scores s
        = alookup r.account_scores s := by
  intro us
  induction us with
  | nil => intro _ r; rfl
  | cons u rest ih =>
    intro hs r
    simp only [List.foldl_cons]
    rw [ih (fun h => hs (List.mem_cons_of_mem u h)) _]
    exact spikeGroupStep_other_score
      (fun he => hs (by rw [he]; exact List.mem_cons_self u rest))

/-- Flags of the empty result are empty. -/
theorem hasFlag_empty {s q : String} :
    ¬ hasFlag (AlgorithmResult.empty : AlgorithmResult String).account_flags
      s q := by
  simp [hasFlag, alookup, AlgorithmResult.empty]

/-- C8 amended: run on the per-sender groups, `_detect_velocity_spike` flags
`velocity_spike` for a sender iff the sender has at least 2 sends and the
code's spike condition holds, where `current_count` counts sends in the
*closed-left* window `[latest - 7d, latest]` and `previous_count` counts
sends in the *open-right* window `[latest - 14d, latest - 7d)` (both via
`searchsorted(..., side="left")`) — not the claim's `(latest-7d, latest]` /
`(latest-14d, latest-7d]`; when flagged, the assigned sub-score is
`round(15·min(1, (ratio - 3)/3), 2)` as claimed. -/
theorem c8_velocity_spike_semantics (df : List (Row String))
    (settings : Settings) (s : String)
    (hpos : 0 < settings.velocity_spike_ratio) :
    (hasFlag (detectVelocitySpike df settings
        AlgorithmResult.empty).account_flags s "velocity_spike"
      ↔ s ∈ dfSenders df
        ∧ spikeTriggered settings ((senderGroup df s).map (·.ts)))
    ∧ (hasFlag (detectVelocitySpike df settings
        AlgorithmResult.empty).account_flags s "velocity_spike" →
      (alookup (detectVelocitySpike df settings
          AlgorithmResult.empty).account_scores s).getD 0
        = spikeScore settings ((senderGroup df s).map (·.ts))) := by
  by_cases hmem : s ∈ dfSenders df
  case neg =>
    constructor
    · rw [detectVelocitySpike, spikeFold_other_flag (dfSenders df) hmem _]
      constructor
      · intro h
        exact absurd h hasFlag_empty
      · intro h
        exact absurd h.1 hmem
    · intro h
      rw [detectVelocitySpike,
        spikeFold_other_flag (dfSenders df) hmem _] at h
      exact absurd h hasFlag_empty
  case pos =>
    obtain ⟨l1, l2, hsplit⟩ := List.append_of_mem hmem
    have hnd : (dfSenders df).Nodup := List.nodup_dedup _
    rw [hsplit] at hnd
    have hs1 : s ∉ l1 := fun h =>
      (List.disjoint_of_nodup_append hnd) h (List.mem_cons_self s l2)
    have hs2 : s ∉ l2 :=
      (List.nodup_cons.mp (hnd.of_append_right)).1
    have hr1s : alookup ((l1.foldl (fun r u =>
        spikeGroupStep settings r u ((senderGroup df u).map (·.ts)))
        AlgorithmResult.empty)).account_scores s = none := by
      rw [spikeFold_other_score l1 hs1 _]
      rfl
    have hr1f : ¬ hasFlag ((l1.foldl (fun r u =>
        spikeGroupStep settings r u ((senderGroup df u).map (·.ts)))
        AlgorithmResult.empty)).account_flags s "velocity_spike" := by
      rw [spikeFold_other_flag l1 hs1 _]
      exact hasFlag_empty
    have hflag_iff : hasFlag (detectVelocitySpike df settings
        AlgorithmResult.empty).account_flags s "velocity_spike"
        ↔ spikeTriggered settings ((senderGroup df s).map (·.ts)) := by
      rw [detectVelocitySpike, hsplit, List.foldl_append, List.foldl_cons,
        spikeFold_other_flag l2 hs2 _, spikeGroupStep_self_flag]
      constructor
      · intro h
        rcases h with h | h
        · exact h
        · exact absurd h hr1f
      · exact Or.inl
    refine ⟨?_, ?_⟩
    · rw [hflag_iff]
      exact ⟨fun h => ⟨hmem, h⟩, fun h => h.2⟩
    · intro hflag
      have htrig := hflag_iff.mp hflag
      rw [detectVelocitySpike, hsplit, List.foldl_append, List.foldl_cons,
        spikeFold_other_score l2 hs2 _,
        spikeGroupStep_self_score hpos htrig hr1s]

/-- C8 counterexample: four sends at `7d, 14d - 1ns, 14d - 1ns, 14d`.  By
the claim's half-open windows, `current = 3` (the boundary send at exactly
`latest - 7d` belongs to *previous*), `previous = 1`, ratio `3 >= 3` —
the claim says `velocity_spike` is flagged.  The code's `searchsorted`
windows put the boundary send in *current* (`current = 4`,
`previous = 0`), so the code does not flag. -/
theorem c8_spike_boundary_counterexample :
    (2 ≤ ([⟨"S", "B", 1, 604800000000000⟩, ⟨"S", "B", 1, 1209599999999999⟩,
        ⟨"S", "B", 1, 1209599999999999⟩,
        ⟨"S", "B", 1, 1209600000000000⟩] : List (Row String)).length
      ∧ (((senderGroup ([⟨"S", "B", 1, 604800000000000⟩,
          ⟨"S", "B", 1, 1209599999999999⟩, ⟨"S", "B", 1, 1209599999999999⟩,
          ⟨"S", "B", 1, 1209600000000000⟩] : List (Row String)) "S").map
            (·.ts)).countP (fun t =>
          decide (1209600000000000 - spikeWindowNs defaultSettings < t)
          && decide (t ≤ 1209600000000000)) : ℚ)
        = 3 * (((senderGroup ([⟨"S", "B", 1, 604800000000000⟩,
          ⟨"S", "B", 1, 1209599999999999⟩, ⟨"S", "B", 1, 1209599999999999⟩,
          ⟨"S", "B", 1, 1209600000000000⟩] : List (Row String)) "S").map
            (·.ts)).countP (fun t =>
          decide (1209600000000000 - 2 * spikeWindowNs defaultSettings < t)
          && decide (t ≤ 1209600000000000 - spikeWindowNs defaultSettings))
          : ℚ))
    ∧ ¬ hasFlag (detectVelocitySpike
        [⟨"S", "B", 1, 604800000000000⟩, ⟨"S", "B", 1, 1209599999999999⟩,
         ⟨"S", "B", 1, 1209599999999999⟩, ⟨"S", "B", 1, 1209600000000000⟩]
        defaultSettings AlgorithmResult.empty).account_flags
        "S" "velocity_spike" := by
  refine ⟨⟨by decide, by decide⟩, by decide⟩

/-- C8 witness: the amended theorem at a table whose sender has 1 send in
the previous week and 3 in the current week (ratio exactly 3, sub-score 0). -/
theorem c8_velocity_spike_semantics_witness :
    (0 : ℚ) < defaultSettings.velocity_spike_ratio
    ∧ (hasFlag (detectVelocitySpike
        [⟨"S", "B", 1, 1⟩, ⟨"S", "B", 1, 1209599999999998⟩,
         ⟨"S", "B", 1, 1209599999999999⟩, ⟨"S", "B", 1, 1209600000000000⟩]
        defaultSettings AlgorithmResult.empty).account_flags
        "S" "velocity_spike"
      ↔ "S" ∈ dfSenders [⟨"S", "B", 1, 1⟩, ⟨"S", "B", 1, 1209599999999998⟩,
          ⟨"S", "B", 1, 1209599999999999⟩, ⟨"S", "B", 1, 1209600000000000⟩]
        ∧ spikeTriggered defaultSettings
          ((senderGroup [⟨"S", "B", 1, 1⟩, ⟨"S", "B", 1, 1209599999999998⟩,
            ⟨"S", "B", 1, 1209599999999999⟩,
            ⟨"S", "B", 1, 1209600000000000⟩] "S").map (·.ts)))
    ∧ hasFlag (detectVelocitySpike
        [⟨"S", "B", 1, 1⟩, ⟨"S", "B", 1, 1209599999999998⟩,
         ⟨"S", "B", 1, 1209599999999999⟩, ⟨"S", "B", 1, 1209600000000000⟩]
        defaultSettings AlgorithmResult.empty).account_flags
        "S" "velocity_spike"
    ∧ (alookup (detectVelocitySpike
        [⟨"S", "B", 1, 1⟩, ⟨"S", "B", 1, 1209599999999998⟩,
         ⟨"S", "B", 1, 1209599999999999⟩, ⟨"S", "B", 1, 1209600000000000⟩]
        defaultSettings AlgorithmResult.empty).account_scores "S").getD 0
      = spikeScore defaultSettings
        ((senderGroup [⟨"S", "B", 1, 1⟩, ⟨"S", "B", 1, 1209599999999998⟩,
          ⟨"S", "B", 1, 1209599999999999⟩,
          ⟨"S", "B", 1, 1209600000000000⟩] "S").map (·.ts)) :=
  ⟨by decide,
   (c8_velocity_spike_semantics [⟨"S", "B", 1, 1⟩,
      ⟨"S", "B", 1, 1209599999999998⟩, ⟨"S", "B", 1, 1209599999999999⟩,
      ⟨"S", "B", 1, 1209600000000000⟩] defaultSettings "S" (by decide)).1,
   by decide,
   (c8_velocity_spike_semantics [⟨"S", "B", 1, 1⟩,
      ⟨"S", "B", 1, 1209599999999998⟩, ⟨"S", "B", 1, 1209599999999999⟩,
      ⟨"S", "B", 1, 1209600000000000⟩] defaultSettings "S" (by decide)).2
      (by decide)⟩

/-- Transaction table of the C7 demonstration: one valid chain
`s → a → b → t` (`a`, `b` shells; `s`, `t` fattened past the shell bound). -/
def c7df : List (Row String) :=
  [⟨"s", "a", 100, 0⟩, ⟨"a", "b", 100, 1⟩, ⟨"b", "t", 100, 2⟩,
   ⟨"s", "x1", 100, 3⟩, ⟨"s", "x2", 100, 4⟩, ⟨"s", "x3", 100, 5⟩,
   ⟨"y1", "t", 100, 6⟩, ⟨"y2", "t", 100, 7⟩, ⟨"y3", "t", 100, 8⟩]

/-- C7: `_bfs_from_source` receives `max_chains` but never consults it, so a
source's BFS records every newly found chain *regardless of how many chains
are already recorded*: for every prior `seen_paths` state not containing the
chain — in particular one already holding `MAX_CHAINS = 10 000` paths — the
BFS of source `s` still records `s → a → b → t`.  The cap is only checked
between sources in `run`, so the total recorded can exceed 10 000. -/
theorem c7_bfs_ignores_chain_cap (log10 : ℚ → ℚ) (r : AlgorithmResult String)
    (seen : List (List String)) (hnew : ["s", "a", "b", "t"] ∉ seen) :
    (shellBfsFromSource log10 1000 (buildGraph c7df) c7df 100 3 3 MAX_CHAINS
      "s" ⟨r, seen⟩).seen = ["s", "a", "b", "t"] :: seen := by
  have key : shellBfsFromSource log10 1000 (buildGraph c7df) c7df 100 3 3
      MAX_CHAINS "s" ⟨r, seen⟩
      = if ["s", "a", "b", "t"] ∈ seen then ⟨r, seen⟩
        else recordChain log10 (buildGraph c7df) c7df 100 3 3
          ["s", "a", "b", "t"] ⟨r, seen⟩ := rfl
  rw [key, if_neg hnew]
  rfl

/-- C7 witness: the theorem applied to an already-populated seen set (one
recorded chain) that does not contain the new chain. -/
theorem c7_bfs_ignores_chain_cap_witness :
    (["s", "a", "b", "t"] ∉ [["q", "w"]])
    ∧ (shellBfsFromSource (fun _ => 0) 1000 (buildGraph c7df) c7df 100 3 3
        MAX_CHAINS "s" ⟨AlgorithmResult.empty, [["q", "w"]]⟩).seen
      = ["s", "a", "b", "t"] :: [["q", "w"]] :=
  ⟨by decide,
   c7_bfs_ignores_chain_cap (fun _ => 0) AlgorithmResult.empty [["q", "w"]]
     (by decide)⟩

/-- C9 counterexample: two outgoing rows with the *same* timestamp give a
consecutive-interval mean of zero, yet the payroll rule does not return the
neutral 1.0: the code sets `interval_cv = 0.0` (perfect regularity), and with
equal amounts the multiplier drops to 0.1, the label is hidden and the
multiplier recorded — refuting "every zero mean in a CV calculation yields
multiplier 1.0, no suppression and no label removal". -/
theorem c9_zero_interval_mean_counterexample :
    payrollIntervals "A" [⟨"A", "B", 5, 0⟩, ⟨"A", "C", 5, 0⟩] = [0]
    ∧ listMean (payrollIntervals "A" [⟨"A", "B", 5, 0⟩, ⟨"A", "C", 5, 0⟩]) = 0
    ∧ payrollMultiplier "A" [⟨"A", "B", 5, 0⟩, ⟨"A", "C", 5, 0⟩]
        defaultSettings = 1/10
    ∧ applySuppression [("A", ["smurfing_fan_out"])]
        (buildGraph [⟨"A", "B", 5, 0⟩, ⟨"A", "C", 5, 0⟩])
        [⟨"A", "B", 5, 0⟩, ⟨"A", "C", 5, 0⟩] defaultSettings
        = ([("A", ["smurfing_fan_out"])], [("A", 1/10)]) := by
  refine ⟨by decide, by decide, by decide, by decide⟩

/-- C9 amended: the payroll rule returns the neutral multiplier 1.0 when the
account has fewer than 2 outgoing rows or when the *amount* mean is zero; a
zero consecutive-interval mean, however, is treated as `interval_cv = 0.0`
(maximal regularity) and can still suppress. -/
theorem c9_payroll_degenerate_neutral (account : String) (df : List (Row String))
    (settings : Settings) :
    ((payrollOutgoing account df).length < 2 →
      payrollMultiplier account df settings = 1)
    ∧ (listMean ((payrollOutgoing account df).map (·.amount)) = 0 →
      payrollMultiplier account df settings = 1) := by
  constructor
  · intro h
    simp [payrollMultiplier, h]
  · intro h
    by_cases h2 : (payrollOutgoing account df).length < 2
    · simp [payrollMultiplier, h2]
    · simp [payrollMultiplier, h2, h]

/-- C9 witness: the amended theorem at a one-row table (fewer than 2 outgoing
rows) and at a table whose outgoing amounts have mean zero. -/
theorem c9_payroll_degenerate_neutral_witness :
    ((payrollOutgoing "Z" [⟨"Z", "B", 5, 0⟩]).length < 2
      ∧ payrollMultiplier "Z" [⟨"Z", "B", 5, 0⟩] defaultSettings = 1)
    ∧ (listMean ((payrollOutgoing "Z"
          [⟨"Z", "B", 5, 0⟩, ⟨"Z", "C", -5, 1⟩]).map (·.amount)) = 0
      ∧ payrollMultiplier "Z" [⟨"Z", "B", 5, 0⟩, ⟨"Z", "C", -5, 1⟩]
          defaultSettings = 1) :=
  ⟨⟨by decide,
    (c9_payroll_degenerate_neutral "Z" [⟨"Z", "B", 5, 0⟩] defaultSettings).1
      (by decide)⟩,
   ⟨by decide,
    (c9_payroll_degenerate_neutral "Z" [⟨"Z", "B", 5, 0⟩, ⟨"Z", "C", -5, 1⟩]
      defaultSettings).2 (by decide)⟩⟩

/-- C3 witness: the amended theorem at `scores = {ACC_B: 13.0}`. -/
theorem c3_threshold_semantics_witness :
    ([("ACC_B", (13 : ℚ))].map Prod.fst).Nodup
    ∧ (((∃ sa ∈ (buildOutput [("ACC_B", 13)] [] [] [] (buildGraph []) []
          defaultSettings).suspicious_accounts, sa.account_id = "ACC_B")
        ↔ defaultSettings.suspicious_score_threshold ≤ (13 : ℚ))
      ∧ ("ACC_B" ∈ ringUniverse [("ACC_B", 13)] defaultSettings
        ↔ defaultSettings.suspicious_score_threshold ≤ (13 : ℚ))) :=
  ⟨by decide,
   c3_threshold_semantics [("ACC_B", 13)] [] [] [] (buildGraph []) []
     defaultSettings "ACC_B" 13 (by decide) (by decide)⟩

/-! ## Smurfing detector (`app/engine/algorithms/smurfing.py`)

Both directions of `SmurfingAlgorithm` are the same loop: fan-in groups the
ts-sorted table by `receiver_id` with the senders as counterparties, fan-out
groups by `sender_id` with the receivers as counterparties.  The embedding is
direction-parametric (`central` selects the grouping column, `cp` the
counterparty column); `math.log10` and numpy's population standard deviation
`ndarray.std()` are taken as function parameters. -/

/-- 72-hour smurfing window as int64 nanoseconds
(`pd.Timedelta(hours=smurfing_window_hours)`). -/
def smurfWindowNs (settings : Settings) : ℤ :=
  (settings.smurfing_window_hours : ℤ) * 3600000000000

/-- Group keys of `groupby(column, sort=False)` over the ts-sorted table:
first-appearance order, no duplicates. -/
def dirKeys (central : Row String → String) (df : List (Row String)) :
    List String :=
  ((dfSortedByTs df).map central).dedup

/-- One central account's group rows, in sorted-table order. -/
def dirGroup (central : Row String → String) (df : List (Row String))
    (c : String) : List (Row String) :=
  (dfSortedByTs df).filter (central · = c)

/-- `right = int(np.searchsorted(ts, ts[i] + window_ns, side="right"))`:
first index whose timestamp exceeds `ts[i] + 72h`. -/
def smurfRight (settings : Settings) (ts : List ℤ) (i : ℕ) : ℕ :=
  searchsortedRight ts (ts.getD i 0 + smurfWindowNs settings)

/-- Unique counterparties of the anchored window `[i, right)`
(`set(counterparties[i:right])`, modelled as a deduplicated list). -/
def smurfUniques (settings : Settings) (ts : List ℤ) (cps : List String)
    (i : ℕ) : List String :=
  ((cps.drop i).take (smurfRight settings ts i - i)).dedup

/-- The anchored-window condition: at least `smurfing_min_degree` unique
counterparties in `[i, right)`. -/
def smurfTriggerAt (settings : Settings) (ts : List ℤ) (cps : List String)
    (i : ℕ) : Prop :=
  settings.smurfing_min_degree ≤ (smurfUniques settings ts cps i).length

instance (settings : Settings) (ts : List ℤ) (cps : List String) (i : ℕ) :
    Decidable (smurfTriggerAt settings ts cps i) := by
  unfold smurfTriggerAt; infer_instance

/-- Translation of `SmurfingAlgorithm._score_smurfing`; `log10` models
`math.log10` and `pstd` models `window_amounts.std()` (numpy population
standard deviation, ddof 0). -/
def scoreSmurfing (settings : Settings) (log10 : ℚ → ℚ) (pstd : List ℚ → ℚ)
    (unique_count : ℕ) (actual_window_ns max_window_ns : ℤ)
    (window_amounts : List ℚ) (median_amount : ℚ) : ℚ :=
  let min_degree := settings.smurfing_min_degree
  let f_degree : ℚ := min 1
    ((((unique_count : ℤ) - (min_degree : ℤ) : ℤ) : ℚ)
      / ((max 1 (40 - (min_degree : ℤ)) : ℤ) : ℚ))
  let f_speed : ℚ := if 0 < max_window_ns
    then 1 - min 1 ((actual_window_ns : ℚ) / (max_window_ns : ℚ))
    else 1
  let total_volume : ℚ :=
    if 0 < window_amounts.length then window_amounts.sum else 0
  let f_volume : ℚ := if 0 < median_amount
    then min 1 (log10 (max 1 (total_volume / median_amount)) / 4)
    else 0
  let f_uniformity : ℚ := if 1 < window_amounts.length then
      let mean_amt := listMean window_amounts
      if 0 < mean_amt then
        let cv := pstd window_amounts / mean_amt
        max 0 (1 - cv / (1/2))
      else 0
    else 0
  pyRound 2 (25 * ((35/100) * f_degree + (30/100) * f_speed
    + (20/100) * f_volume + (15/100) * f_uniformity))

/-- The `_score_smurfing` call at anchor `i` (argument expressions of the
triggering branch: unique count, `ts[min(right-1, len-1)] - ts[i]`, the
window length, the amount slice, the dataset median). -/
def smurfScoreAt (settings : Settings) (log10 : ℚ → ℚ) (pstd : List ℚ → ℚ)
    (median_amount : ℚ) (ts : List ℤ) (cps : List String) (amounts : List ℚ)
    (i : ℕ) : ℚ :=
  scoreSmurfing settings log10 pstd (smurfUniques settings ts cps i).length
    (ts.getD (min (smurfRight settings ts i - 1) (ts.length - 1)) 0
      - ts.getD i 0)
    (smurfWindowNs settings)
    ((amounts.drop i).take (smurfRight settings ts i - i)) median_amount

/-- Effect of the loop's triggering arm at anchor `i`: add the direction's
flag, append the cluster `{central} ∪ uniques`, max-update the score. -/
def smurfEffect (settings : Settings) (log10 : ℚ → ℚ) (pstd : List ℚ → ℚ)
    (median_amount : ℚ) (c pat : String) (ts : List ℤ) (cps : List String)
    (amounts : List ℚ) (i : ℕ) (r : AlgorithmResult String) :
    AlgorithmResult String :=
  let r1 := addFlag r c pat
  let r2 := { r1 with clusters :=
    r1.clusters ++ [c :: smurfUniques settings ts cps i] }
  bumpScore r2 c (smurfScoreAt settings log10 pstd median_amount ts cps
    amounts i)

/-- The anchor loop `for i in range(len(ts))` of `_detect_fan_in` /
`_detect_fan_out`: at the first triggering anchor apply the effect and
`break`. -/
def smurfLoop (settings : Settings) (log10 : ℚ → ℚ) (pstd : List ℚ → ℚ)
    (median_amount : ℚ) (c pat : String) (ts : List ℤ) (cps : List String)
    (amounts : List ℚ) :
    List ℕ → AlgorithmResult String → AlgorithmResult String
  | [], r => r
  | i :: rest, r =>
    if smurfTriggerAt settings ts cps i then
      smurfEffect settings log10 pstd median_amount c pat ts cps amounts i r
    else smurfLoop settings log10 pstd median_amount c pat ts cps amounts
      rest r

/-- First anchor index that triggers, if any. -/
def firstAnchorOpt (settings : Settings) (ts : List ℤ) (cps : List String) :
    Option ℕ :=
  (List.range ts.length).find?
    (fun i => decide (smurfTriggerAt settings ts cps i))

/-- Per-group body of both detection loops: groups with fewer than
`smurfing_min_degree` rows are skipped (`continue`), others run the anchor
loop over their parallel columns. -/
def smurfGroupStep (settings : Settings) (log10 : ℚ → ℚ) (pstd : List ℚ → ℚ)
    (median_amount : ℚ) (pat : String) (cp : Row String → String)
    (r : AlgorithmResult String) (c : String) (g : List (Row String)) :
    AlgorithmResult String :=
  if g.length < settings.smurfing_min_degree then r
  else smurfLoop settings log10 pstd median_amount c pat (g.map (·.ts))
    (g.map cp) (g.map (·.amount)) (List.range (g.map (·.ts)).length) r

/-- `_detect_fan_in` / `_detect_fan_out`, direction-parametric: fold the
per-group body over the group keys. -/
def detectDirection (settings : Settings) (log10 : ℚ → ℚ) (pstd : List ℚ → ℚ)
    (median_amount : ℚ) (pat : String) (central cp : Row String → String)
    (df : List (Row String)) (r : AlgorithmResult String) :
    AlgorithmResult String :=
  (dirKeys central df).foldl (fun r c =>
    smurfGroupStep settings log10 pstd median_amount pat cp r c
      (dirGroup central df c)) r

/-- `SmurfingAlgorithm.run`: dataset amount median, fan-in pass over the
receiver groups, then fan-out pass over the sender groups. -/
def smurfingRun (settings : Settings) (log10 : ℚ → ℚ) (pstd : List ℚ → ℚ)
    (df : List (Row String)) : AlgorithmResult String :=
  detectDirection settings log10 pstd (median (df.map (·.amount)))
    "smurfing_fan_out" (·.sender) (·.receiver) df
    (detectDirection settings log10 pstd (median (df.map (·.amount)))
      "smurfing_fan_in" (·.receiver) (·.sender) df AlgorithmResult.empty)

/-- Does this direction's group of `c` trigger?  (`min_degree` rows or more,
and some anchored window reaches `min_degree` unique counterparties.) -/
def smurfTriggersB (settings : Settings) (central cp : Row String → String)
    (df : List (Row String)) (c : String) : Bool :=
  decide (settings.smurfing_min_degree ≤ (dirGroup central df c).length)
    && (firstAnchorOpt settings ((dirGroup central df c).map (·.ts))
        ((dirGroup central df c).map cp)).isSome

/-- The one cluster a triggering central account emits: the central account
with the unique counterparties of its first triggering window. -/
def smurfClusterOf (settings : Settings) (central cp : Row String → String)
    (df : List (Row String)) (c : String) : List String :=
  (firstAnchorOpt settings ((dirGroup central df c).map (·.ts))
      ((dirGroup central df c).map cp)).elim [c]
    (fun i => c :: smurfUniques settings ((dirGroup central df c).map (·.ts))
      ((dirGroup central df c).map cp) i)

/-- One direction's score contribution for an account: the continuous score
at the first triggering anchor, `0` when the direction does not trigger. -/
def smurfScoreContrib (settings : Settings) (log10 : ℚ → ℚ)
    (pstd : List ℚ → ℚ) (median_amount : ℚ)
    (central cp : Row String → String) (df : List (Row String))
    (c : String) : ℚ :=
  if smurfTriggersB settings central cp df c then
    (firstAnchorOpt settings ((dirGroup central df c).map (·.ts))
        ((dirGroup central df c).map cp)).elim 0
      (fun i => smurfScoreAt settings log10 pstd median_amount
        ((dirGroup central df c).map (·.ts))
        ((dirGroup central df c).map cp)
        ((dirGroup central df c).map (·.amount)) i)
  else 0

/-- Replacing the clusters leaves the flags. -/
theorem clusters_update_flags (r : AlgorithmResult String)
    (cl : List (List String)) :
    ({ r with clusters := cl }).account_flags = r.account_flags := rfl

/-- Replacing the clusters leaves the scores. -/
theorem clusters_update_scores (r : AlgorithmResult String)
    (cl : List (List String)) :
    ({ r with clusters := cl }).account_scores = r.account_scores := rfl

/-- `_add_flag` leaves the clusters. -/
theorem addFlag_clusters {α : Type} [DecidableEq α] (r : AlgorithmResult α)
    (a : α) (p : String) : (addFlag r a p).clusters = r.clusters := by
  cases hl : alookup r.account_flags a with
  | none => rw [addFlag_eq_none hl]
  | some fl =>
    by_cases hp : p ∈ fl
    · rw [addFlag_eq_mem hl hp]
    · rw [addFlag_eq_new hl hp]

/-- The max-update leaves the clusters. -/
theorem bumpScore_clusters {α : Type} [DecidableEq α] (r : AlgorithmResult α)
    (a : α) (s : ℚ) : (bumpScore r a s).clusters = r.clusters := by
  unfold bumpScore
  split <;> rfl

/-- Flags after one triggering-arm effect. -/
theorem smurfEffect_flags (settings : Settings) (log10 : ℚ → ℚ)
    (pstd : List ℚ → ℚ) (median_amount : ℚ) (c pat : String) (ts : List ℤ)
    (cps : List String) (amounts : List ℚ) (i : ℕ)
    (r : AlgorithmResult String) (n q : String) :
    hasFlag (smurfEffect settings log10 pstd median_amount c pat ts cps
        amounts i r).account_flags n q
      ↔ ((n = c ∧ q = pat) ∨ hasFlag r.account_flags n q) := by
  simp only [smurfEffect]
  rw [hasFlag, bumpScore_flags, clusters_update_flags, ← hasFlag]
  exact hasFlag_addFlag_iff

/-- The effect leaves other accounts' scores. -/
theorem smurfEffect_scores_ne (settings : Settings) (log10 : ℚ → ℚ)
    (pstd : List ℚ → ℚ) (median_amount : ℚ) (c pat : String) (ts : List ℤ)
    (cps : List String) (amounts : List ℚ) (i : ℕ)
    (r : AlgorithmResult String) {n : String} (hne : n ≠ c) :
    alookup (smurfEffect settings log10 pstd median_amount c pat ts cps
        amounts i r).account_scores n = alookup r.account_scores n := by
  simp only [smurfEffect]
  rw [bumpScore_scores_ne hne, clusters_update_scores, addFlag_scores]

/-- The central account's score after the effect is the max-update with the
anchor's continuous score. -/
theorem smurfEffect_scores_self (settings : Settings) (log10 : ℚ → ℚ)
    (pstd : List ℚ → ℚ) (median_amount : ℚ) (c pat : String) (ts : List ℤ)
    (cps : List String) (amounts : List ℚ) (i : ℕ)
    (r : AlgorithmResult String) :
    (alookup (smurfEffect settings log10 pstd median_amount c pat ts cps
        amounts i r).account_scores c).getD 0
      = max ((alookup r.account_scores c).getD 0)
          (smurfScoreAt settings log10 pstd median_amount ts cps amounts i) := by
  simp only [smurfEffect]
  rw [bumpScore_scores_self, clusters_update_scores, addFlag_scores]
  by_cases h : (alookup r.account_scores c).getD 0
      < smurfScoreAt settings log10 pstd median_amount ts cps amounts i
  · rw [if_pos h, Option.getD_some, max_eq_right (le_of_lt h)]
  · rw [if_neg h, max_eq_left (not_lt.mp h)]

/-- The effect appends exactly one cluster. -/
theorem smurfEffect_clusters (settings : Settings) (log10 : ℚ → ℚ)
    (pstd : List ℚ → ℚ) (median_amount : ℚ) (c pat : String) (ts : List ℤ)
    (cps : List String) (amounts : List ℚ) (i : ℕ)
    (r : AlgorithmResult String) :
    (smurfEffect settings log10 pstd median_amount c pat ts cps amounts i
        r).clusters
      = r.clusters ++ [c :: smurfUniques settings ts cps i] := by
  simp only [smurfEffect]
  rw [bumpScore_clusters]
  show (addFlag r c pat).clusters ++ _ = _
  rw [addFlag_clusters]

/-- The anchor loop either applies the effect at the first triggering index
of its list or returns the state unchanged. -/
theorem smurfLoop_eq (settings : Settings) (log10 : ℚ → ℚ)
    (pstd : List ℚ → ℚ) (median_amount : ℚ) (c pat : String) (ts : List ℤ)
    (cps : List String) (amounts : List ℚ) :
    ∀ (l : List ℕ) (r : AlgorithmResult String),
      smurfLoop settings log10 pstd median_amount c pat ts cps amounts l r
        = (l.find? (fun i => decide (smurfTriggerAt settings ts cps i))).elim
            r (fun i => smurfEffect settings log10 pstd median_amount c pat
              ts cps amounts i r) := by
  intro l
  induction l with
  | nil => intro r; rfl
  | cons i rest ih =>
    intro r
    by_cases h : smurfTriggerAt settings ts cps i
    · simp only [smurfLoop, if_pos h]
      have hf : List.find? (fun j => decide (smurfTriggerAt settings ts cps j))
          (i :: rest) = some i := by
        simp [List.find?_cons, h]
      rw [hf]
      rfl
    · simp only [smurfLoop, if_neg h, ih]
      have hf : List.find? (fun j => decide (smurfTriggerAt settings ts cps j))
          (i :: rest)
          = List.find? (fun j => decide (smurfTriggerAt settings ts cps j))
            rest := by
        simp [List.find?_cons, h]
      rw [hf]

/-- `find?` on `range' s k` returns the minimal qualifying index. -/
theorem find_range_first {p : ℕ → Bool} :
    ∀ (k s i : ℕ), (List.range' s k).find? p = some i →
      p i = true ∧ s ≤ i ∧ ∀ j, s ≤ j → j < i → p j = false := by
  intro k
  induction k with
  | zero => intro s i h; simp [List.range'] at h
  | succ k ih =>
    intro s i h
    rw [List.range'_succ] at h
    by_cases hp : p s
    · rw [List.find?_cons_of_pos _ hp] at h
      cases h
      exact ⟨hp, le_refl _,
        fun j hj1 hj2 => absurd (lt_of_le_of_lt hj1 hj2) (lt_irrefl _)⟩
    · rw [List.find?_cons_of_neg _ hp] at h
      obtain ⟨h1, h2, h3⟩ := ih (s + 1) i h
      refine ⟨h1, le_trans (Nat.le_succ s) h2, fun j hj1 hj2 => ?_⟩
      rcases Nat.eq_or_lt_of_le hj1 with he | hlt
      · rw [← he]
        simpa using hp
      · exact h3 j hlt hj2

/-- A returned first anchor triggers, is in range, and is minimal. -/
theorem firstAnchorOpt_some (settings : Settings) (ts : List ℤ)
    (cps : List String) (i : ℕ)
    (h : firstAnchorOpt settings ts cps = some i) :
    i < ts.length ∧ smurfTriggerAt settings ts cps i
      ∧ ∀ j < i, ¬ smurfTriggerAt settings ts cps j := by
  have hm := List.mem_of_find?_eq_some h
  rw [List.mem_range] at hm
  unfold firstAnchorOpt at h
  rw [List.range_eq_range'] at h
  obtain ⟨h1, _, h3⟩ := find_range_first _ _ _ h
  refine ⟨hm, of_decide_eq_true h1, fun j hj ht => ?_⟩
  have := h3 j (Nat.zero_le j) hj
  rw [decide_eq_true ht] at this
  simp at this

/-- The first anchor exists iff some in-range anchor triggers. -/
theorem firstAnchorOpt_isSome (settings : Settings) (ts : List ℤ)
    (cps : List String) :
    (firstAnchorOpt settings ts cps).isSome = true
      ↔ ∃ i < ts.length, smurfTriggerAt settings ts cps i := by
  unfold firstAnchorOpt
  rw [List.find?_isSome]
  constructor
  · rintro ⟨x, hx, hpx⟩
    exact ⟨x, List.mem_range.mp hx, of_decide_eq_true hpx⟩
  · rintro ⟨i, hi, ht⟩
    exact ⟨i, List.mem_range.mpr hi, decide_eq_true ht⟩

/-- Flags after one group's processing: the central account gains the
direction's flag exactly when the group qualifies and some anchor
triggers. -/
theorem smurfGroupStep_flags (settings : Settings) (log10 : ℚ → ℚ)
    (pstd : List ℚ → ℚ) (median_amount : ℚ) (pat : String)
    (cp : Row String → String) (r : AlgorithmResult String) (c : String)
    (g : List (Row String)) (n q : String) :
    hasFlag (smurfGroupStep settings log10 pstd median_amount pat cp r c
        g).account_flags n q
      ↔ ((n = c ∧ q = pat
          ∧ (decide (settings.smurfing_min_degree ≤ g.length)
            && (firstAnchorOpt settings (g.map (·.ts))
                (g.map cp)).isSome) = true)
        ∨ hasFlag r.account_flags n q) := by
  unfold smurfGroupStep firstAnchorOpt
  split
  · rename_i hlt
    have hd : decide (settings.smurfing_min_degree ≤ g.length) = false := by
      simp only [decide_eq_false_iff_not]
      omega
    rw [hd]
    simp
  · rename_i hge
    have hd : decide (settings.smurfing_min_degree ≤ g.length) = true := by
      simp only [decide_eq_true_eq]
      omega
    rw [smurfLoop_eq, hd, Bool.true_and]
    cases hf : (List.range (g.map (·.ts)).length).find?
        (fun i => decide (smurfTriggerAt settings (g.map (·.ts))
          (g.map cp) i)) with
    | none =>
      rw [Option.elim_none, Option.isSome_none]
      simp
    | some i =>
      rw [Option.elim_some, Option.isSome_some, smurfEffect_flags]
      simp

/-- One group's processing leaves other accounts' scores. -/
theorem smurfGroupStep_scores_ne (settings : Settings) (log10 : ℚ → ℚ)
    (pstd : List ℚ → ℚ) (median_amount : ℚ) (pat : String)
    (cp : Row String → String) (r : AlgorithmResult String) (c : String)
    (g : List (Row String)) {n : String} (hne : n ≠ c) :
    alookup (smurfGroupStep settings log10 pstd median_amount pat cp r c
        g).account_scores n = alookup r.account_scores n := by
  unfold smurfGroupStep
  split
  · rfl
  · rw [smurfLoop_eq]
    cases hf : (List.range (g.map (·.ts)).length).find?
        (fun i => decide (smurfTriggerAt settings (g.map (·.ts))
          (g.map cp) i)) with
    | none => rw [Option.elim_none]
    | some i =>
      rw [Option.elim_some]
      exact smurfEffect_scores_ne settings log10 pstd median_amount c pat _ _
        _ i r hne

/-- The central account's score after one group's processing: max-updated by
the first anchor's continuous score when the group triggers, untouched
otherwise. -/
theorem smurfGroupStep_scores_self (settings : Settings) (log10 : ℚ → ℚ)
    (pstd : List ℚ → ℚ) (median_amount : ℚ) (pat : String)
    (cp : Row String → String) (r : AlgorithmResult String) (c : String)
    (g : List (Row String)) :
    (alookup (smurfGroupStep settings log10 pstd median_amount pat cp r c
        g).account_scores c).getD 0
      = if (decide (settings.smurfing_min_degree ≤ g.length)
            && (firstAnchorOpt settings (g.map (·.ts))
              (g.map cp)).isSome) = true then
          max ((alookup r.account_scores c).getD 0)
            ((firstAnchorOpt settings (g.map (·.ts)) (g.map cp)).elim 0
              (fun i => smurfScoreAt settings log10 pstd median_amount
                (g.map (·.ts)) (g.map cp) (g.map (·.amount)) i))
        else (alookup r.account_scores c).getD 0 := by
  unfold smurfGroupStep firstAnchorOpt
  split
  · rename_i hlt
    have hd : decide (settings.smurfing_min_degree ≤ g.length) = false := by
      simp only [decide_eq_false_iff_not]
      omega
    rw [hd, Bool.false_and]
    simp
  · rename_i hge
    have hd : decide (settings.smurfing_min_degree ≤ g.length) = true := by
      simp only [decide_eq_true_eq]
      omega
    rw [smurfLoop_eq, hd, Bool.true_and]
    cases hf : (List.range (g.map (·.ts)).length).find?
        (fun i => decide (smurfTriggerAt settings (g.map (·.ts))
          (g.map cp) i)) with
    | none =>
      rw [Option.elim_none, Option.isSome_none]
      simp
    | some i =>
      rw [Option.elim_some, Option.elim_some, Option.isSome_some,
        smurfEffect_scores_self]
      simp

/-- The clusters after one group's processing: one appended cluster when the
group triggers, none otherwise. -/
theorem smurfGroupStep_clusters (settings : Settings) (log10 : ℚ → ℚ)
    (pstd : List ℚ → ℚ) (median_amount : ℚ) (pat : String)
    (cp : Row String → String) (r : AlgorithmResult String) (c : String)
    (g : List (Row String)) :
    (smurfGroupStep settings log10 pstd median_amount pat cp r c g).clusters
      = r.clusters ++
        (if (decide (settings.smurfing_min_degree ≤ g.length)
            && (firstAnchorOpt settings (g.map (·.ts))
              (g.map cp)).isSome) = true then
          [(firstAnchorOpt settings (g.map (·.ts)) (g.map cp)).elim [c]
            (fun i => c :: smurfUniques settings (g.map (·.ts))
              (g.map cp) i)]
        else []) := by
  unfold smurfGroupStep firstAnchorOpt
  split
  · rename_i hlt
    have hd : decide (settings.smurfing_min_degree ≤ g.length) = false := by
      simp only [decide_eq_false_iff_not]
      omega
    rw [hd, Bool.false_and]
    simp
  · rename_i hge
    have hd : decide (settings.smurfing_min_degree ≤ g.length) = true := by
      simp only [decide_eq_true_eq]
      omega
    rw [smurfLoop_eq, hd, Bool.true_and]
    cases hf : (List.range (g.map (·.ts)).length).find?
        (fun i => decide (smurfTriggerAt settings (g.map (·.ts))
          (g.map cp) i)) with
    | none =>
      rw [Option.elim_none, Option.isSome_none]
      simp
    | some i =>
      rw [Option.elim_some, Option.elim_some, Option.isSome_some,
        smurfEffect_clusters]
      simp

/-- Flags after folding one direction's per-group body over a key list. -/
theorem smurfFold_hasFlag (settings : Settings) (log10 : ℚ → ℚ)
    (pstd : List ℚ → ℚ) (median_amount : ℚ) (pat : String)
    (central cp : Row String → String) (df : List (Row String))
    (n q : String) :
    ∀ (ks : List String) (r : AlgorithmResult String),
      hasFlag ((ks.foldl (fun r c => smurfGroupStep settings log10 pstd
          median_amount pat cp r c (dirGroup central df c)) r)).account_flags
          n q
        ↔ ((n ∈ ks ∧ q = pat
            ∧ smurfTriggersB settings central cp df n = true)
          ∨ hasFlag r.account_flags n q) := by
  unfold smurfTriggersB
  intro ks
  induction ks with
  | nil =>
    intro r
    simp
  | cons k ks ih =>
    intro r
    rw [List.foldl_cons, ih, smurfGroupStep_flags]
    constructor
    · rintro (⟨hn, hq, ht⟩ | ⟨⟨hnk, hq, ht⟩ | h⟩)
      · exact Or.inl ⟨List.mem_cons_of_mem _ hn, hq, ht⟩
      · subst hnk
        exact Or.inl ⟨List.mem_cons_self _ _, hq, ht⟩
      · exact Or.inr h
    · rintro (⟨hn, hq, ht⟩ | h)
      · rcases List.mem_cons.mp hn with he | hm
        · subst he
          exact Or.inr (Or.inl ⟨rfl, hq, ht⟩)
        · exact Or.inl ⟨hm, hq, ht⟩
      · exact Or.inr (Or.inr h)

/-- Scores after folding one direction over a duplicate-free key list: the
account's score is max-updated with its first anchor's continuous score
exactly when its group triggers. -/
theorem smurfFold_scores (settings : Settings) (log10 : ℚ → ℚ)
    (pstd : List ℚ → ℚ) (median_amount : ℚ) (pat : String)
    (central cp : Row String → String) (df : List (Row String))
    (c : String) :
    ∀ (ks : List String), ks.Nodup → ∀ (r : AlgorithmResult String),
      (alookup ((ks.foldl (fun r a => smurfGroupStep settings log10 pstd
          median_amount pat cp r a (dirGroup central df a))
          r)).account_scores c).getD 0
        = if c ∈ ks ∧ smurfTriggersB settings central cp df c = true then
            max ((alookup r.account_scores c).getD 0)
              ((firstAnchorOpt settings ((dirGroup central df c).map (·.ts))
                  ((dirGroup central df c).map cp)).elim 0
                (fun i => smurfScoreAt settings log10 pstd median_amount
                  ((dirGroup central df c).map (·.ts))
                  ((dirGroup central df c).map cp)
                  ((dirGroup central df c).map (·.amount)) i))
          else (alookup r.account_scores c).getD 0 := by
  intro ks
  induction ks with
  | nil =>
    intro _ r
    rw [if_neg]
    · rfl
    · rintro ⟨h, -⟩
      exact absurd h (List.not_mem_nil c)
  | cons k ks ih =>
    intro hnd r
    rw [List.foldl_cons, ih (List.nodup_cons.mp hnd).2]
    by_cases hck : c = k
    · subst hck
      have hnotin : c ∉ ks := (List.nodup_cons.mp hnd).1
      have h1 : ¬ (c ∈ ks ∧ smurfTriggersB settings central cp df c = true) :=
        fun h => hnotin h.1
      rw [if_neg h1, smurfGroupStep_scores_self]
      by_cases ht : smurfTriggersB settings central cp df c = true
      · have ht' : (decide (settings.smurfing_min_degree
            ≤ (dirGroup central df c).length)
            && (firstAnchorOpt settings ((dirGroup central df c).map (·.ts))
              ((dirGroup central df c).map cp)).isSome) = true := ht
        rw [if_pos ht', if_pos ⟨List.mem_cons_self c ks, ht⟩]
      · have ht' : ¬ ((decide (settings.smurfing_min_degree
            ≤ (dirGroup central df c).length)
            && (firstAnchorOpt settings ((dirGroup central df c).map (·.ts))
              ((dirGroup central df c).map cp)).isSome) = true) :=
          fun h => ht h
        rw [if_neg ht', if_neg (fun h => ht h.2)]
    · rw [smurfGroupStep_scores_ne settings log10 pstd median_amount pat cp r
        k (dirGroup central df k) hck]
      by_cases hc2 : c ∈ ks ∧ smurfTriggersB settings central cp df c = true
      · rw [if_pos hc2, if_pos ⟨List.mem_cons_of_mem _ hc2.1, hc2.2⟩]
      · rw [if_neg hc2, if_neg (fun h =>
          hc2 ⟨(List.mem_cons.mp h.1).resolve_left hck, h.2⟩)]

/-- Clusters after folding one direction over a key list: each triggering
account appends exactly its one first-anchor cluster, in key order. -/
theorem smurfFold_clusters (settings : Settings) (log10 : ℚ → ℚ)
    (pstd : List ℚ → ℚ) (median_amount : ℚ) (pat : String)
    (central cp : Row String → String) (df : List (Row String)) :
    ∀ (ks : List String) (r : AlgorithmResult String),
      ((ks.foldl (fun r a => smurfGroupStep settings log10 pstd
          median_amount pat cp r a (dirGroup central df a)) r)).clusters
        = r.clusters
          ++ (ks.filter (smurfTriggersB settings central cp df)).map
            (smurfClusterOf settings central cp df) := by
  intro ks
  induction ks with
  | nil =>
    intro r
    simp
  | cons k ks ih =>
    intro r
    rw [List.foldl_cons, ih, smurfGroupStep_clusters, List.filter_cons]
    have hcl : (firstAnchorOpt settings ((dirGroup central df k).map (·.ts))
        ((dirGroup central df k).map cp)).elim [k]
        (fun i => k :: smurfUniques settings
          ((dirGroup central df k).map (·.ts))
          ((dirGroup central df k).map cp) i)
        = smurfClusterOf settings central cp df k := rfl
    by_cases ht : smurfTriggersB settings central cp df k = true
    · have ht' : (decide (settings.smurfing_min_degree
          ≤ (dirGroup central df k).length)
          && (firstAnchorOpt settings ((dirGroup central df k).map (·.ts))
            ((dirGroup central df k).map cp)).isSome) = true := ht
      rw [if_pos ht', if_pos ht, hcl, List.map_cons, List.append_assoc,
        List.singleton_append]
    · have ht' : ¬ ((decide (settings.smurfing_min_degree
          ≤ (dirGroup central df k).length)
          && (firstAnchorOpt settings ((dirGroup central df k).map (·.ts))
            ((dirGroup central df k).map cp)).isSome) = true) :=
        fun h => ht h
      rw [if_neg ht', if_neg ht, List.append_nil]

/-- A triggering account is one of its direction's group keys. -/
theorem smurfTriggersB_mem (settings : Settings)
    (central cp : Row String → String) (df : List (Row String)) (c : String)
    (h : smurfTriggersB settings central cp df c = true) :
    c ∈ dirKeys central df := by
  unfold smurfTriggersB at h
  rw [Bool.and_eq_true] at h
  obtain ⟨-, h2⟩ := h
  rw [firstAnchorOpt_isSome] at h2
  obtain ⟨i, hi, -⟩ := h2
  rw [List.length_map] at hi
  have hlen : 0 < (dirGroup central df c).length :=
    Nat.lt_of_le_of_lt (Nat.zero_le i) hi
  obtain ⟨x, hx⟩ :=
    List.exists_mem_of_ne_nil _ (List.length_pos.mp hlen)
  unfold dirGroup at hx
  rw [List.mem_filter] at hx
  unfold dirKeys
  rw [List.mem_dedup]
  exact List.mem_map.mpr ⟨x, hx.1, of_decide_eq_true hx.2⟩

/-- The Boolean trigger, read as claim C5 states it: the group has at least
`min_degree` rows and some anchored window reaches `min_degree` unique
counterparties. -/
theorem smurfTriggersB_iff (settings : Settings)
    (central cp : Row String → String) (df : List (Row String))
    (c : String) :
    (c ∈ dirKeys central df
        ∧ smurfTriggersB settings central cp df c = true)
      ↔ (settings.smurfing_min_degree ≤ (dirGroup central df c).length
        ∧ ∃ i < (dirGroup central df c).length,
            smurfTriggerAt settings ((dirGroup central df c).map (·.ts))
              ((dirGroup central df c).map cp) i) := by
  constructor
  · rintro ⟨-, ht⟩
    unfold smurfTriggersB at ht
    rw [Bool.and_eq_true] at ht
    obtain ⟨h1, h2⟩ := ht
    rw [firstAnchorOpt_isSome, List.length_map] at h2
    exact ⟨of_decide_eq_true h1, h2⟩
  · rintro ⟨h1, h2⟩
    have ht : smurfTriggersB settings central cp df c = true := by
      unfold smurfTriggersB
      rw [Bool.and_eq_true]
      refine ⟨decide_eq_true h1, ?_⟩
      rw [firstAnchorOpt_isSome, List.length_map]
      exact h2
    exact ⟨smurfTriggersB_mem settings central cp df c ht, ht⟩

/-- C5: for each direction of the smurfing run (fan-in grouping the sorted
table by receiver with the senders as counterparties, fan-out grouping by
sender with the receivers as counterparties), an account is flagged
`smurfing_fan_in` / `smurfing_fan_out` iff its group has at least
`smurfing_min_degree` rows and some anchor row `i` has at least
`min_degree` unique counterparties before the first index whose timestamp
exceeds `ts[i] + 72h`; each triggering account emits exactly one cluster —
the central account with the unique counterparties of its *first*
triggering anchor (the returned anchor triggers and no earlier anchor
does) — and the recorded score is the continuous smurfing score of that
first anchor, the two directions combined by max-update (0 when a
direction does not trigger). -/
theorem c5_smurfing_first_anchor_semantics (settings : Settings)
    (log10 : ℚ → ℚ) (pstd : List ℚ → ℚ) (df : List (Row String))
    (c : String) :
    (hasFlag (smurfingRun settings log10 pstd df).account_flags c
        "smurfing_fan_in"
      ↔ settings.smurfing_min_degree ≤ (dirGroup (·.receiver) df c).length
        ∧ ∃ i < (dirGroup (·.receiver) df c).length,
            smurfTriggerAt settings
              ((dirGroup (·.receiver) df c).map (·.ts))
              ((dirGroup (·.receiver) df c).map (·.sender)) i)
    ∧ (hasFlag (smurfingRun settings log10 pstd df).account_flags c
        "smurfing_fan_out"
      ↔ settings.smurfing_min_degree ≤ (dirGroup (·.sender) df c).length
        ∧ ∃ i < (dirGroup (·.sender) df c).length,
            smurfTriggerAt settings
              ((dirGroup (·.sender) df c).map (·.ts))
              ((dirGroup (·.sender) df c).map (·.receiver)) i)
    ∧ ((smurfingRun settings log10 pstd df).clusters
      = ((dirKeys (·.receiver) df).filter
            (smurfTriggersB settings (·.receiver) (·.sender) df)).map
          (smurfClusterOf settings (·.receiver) (·.sender) df)
        ++ ((dirKeys (·.sender) df).filter
            (smurfTriggersB settings (·.sender) (·.receiver) df)).map
          (smurfClusterOf settings (·.sender) (·.receiver) df))
    ∧ (∀ (ts : List ℤ) (cps : List String) (i : ℕ),
        firstAnchorOpt settings ts cps = some i →
          smurfTriggerAt settings ts cps i
            ∧ ∀ j < i, ¬ smurfTriggerAt settings ts cps j)
    ∧ ((alookup (smurfingRun settings log10 pstd df).account_scores
          c).getD 0
      = max 0 (max
          (smurfScoreContrib settings log10 pstd (median (df.map (·.amount)))
            (·.receiver) (·.sender) df c)
          (smurfScoreContrib settings log10 pstd (median (df.map (·.amount)))
            (·.sender) (·.receiver) df c))) := by
  refine ⟨?_, ?_, ?_, ?_, ?_⟩
  · unfold smurfingRun detectDirection
    rw [smurfFold_hasFlag, smurfFold_hasFlag, ← smurfTriggersB_iff]
    constructor
    · rintro (⟨-, hq, -⟩ | ⟨hmem, -, ht⟩ | habs)
      · exact absurd hq (by decide)
      · exact ⟨hmem, ht⟩
      · exact absurd habs hasFlag_empty
    · rintro ⟨hmem, ht⟩
      exact Or.inr (Or.inl ⟨hmem, rfl, ht⟩)
  · unfold smurfingRun detectDirection
    rw [smurfFold_hasFlag, smurfFold_hasFlag, ← smurfTriggersB_iff]
    constructor
    · rintro (⟨hmem, -, ht⟩ | ⟨-, hq, -⟩ | habs)
      · exact ⟨hmem, ht⟩
      · exact absurd hq (by decide)
      · exact absurd habs hasFlag_empty
    · rintro ⟨hmem, ht⟩
      exact Or.inl ⟨hmem, rfl, ht⟩
  · unfold smurfingRun detectDirection
    rw [smurfFold_clusters, smurfFold_clusters]
    have h0 : (AlgorithmResult.empty : AlgorithmResult String).clusters
        = [] := rfl
    rw [h0, List.nil_append]
  · intro ts cps i h
    obtain ⟨-, h2, h3⟩ := firstAnchorOpt_some settings ts cps i h
    exact ⟨h2, h3⟩
  · unfold smurfingRun detectDirection
    rw [smurfFold_scores settings log10 pstd (median (df.map (·.amount)))
        "smurfing_fan_out" (·.sender) (·.receiver) df c
        (dirKeys (·.sender) df) (List.nodup_dedup _),
      smurfFold_scores settings log10 pstd (median (df.map (·.amount)))
        "smurfing_fan_in" (·.receiver) (·.sender) df c
        (dirKeys (·.receiver) df) (List.nodup_dedup _)]
    have he : (alookup (AlgorithmResult.empty
        : AlgorithmResult String).account_scores c).getD 0 = 0 := rfl
    rw [he]
    simp only [smurfScoreContrib]
    by_cases htO : smurfTriggersB settings (·.sender) (·.receiver) df c
        = true
    · rw [if_pos ⟨smurfTriggersB_mem settings (·.sender) (·.receiver) df c
          htO, htO⟩, if_pos htO]
      by_cases htI : smurfTriggersB settings (·.receiver) (·.sender) df c
          = true
      · rw [if_pos ⟨smurfTriggersB_mem settings (·.receiver) (·.sender) df c
            htI, htI⟩, if_pos htI, max_assoc]
      · rw [if_neg (fun h => htI h.2), if_neg htI, ← max_assoc, max_self]
    · rw [if_neg (fun h => htO h.2), if_neg htO]
      by_cases htI : smurfTriggersB settings (·.receiver) (·.sender) df c
          = true
      · rw [if_pos ⟨smurfTriggersB_mem settings (·.receiver) (·.sender) df c
            htI, htI⟩, if_pos htI]
        rw [max_comm _ (0 : ℚ), ← max_assoc, max_self]
      · rw [if_neg (fun h => htI h.2), if_neg htI, max_self, max_self]

/-- Ten distinct senders paying one receiver within 72 hours: a fan-in
triggering table. -/
def smurfDemoDf : List (Row String) :=
  [⟨"S0", "C", 100, 0⟩, ⟨"S1", "C", 100, 1⟩, ⟨"S2", "C", 100, 2⟩,
   ⟨"S3", "C", 100, 3⟩, ⟨"S4", "C", 100, 4⟩, ⟨"S5", "C", 100, 5⟩,
   ⟨"S6", "C", 100, 6⟩, ⟨"S7", "C", 100, 7⟩, ⟨"S8", "C", 100, 8⟩,
   ⟨"S9", "C", 100, 9⟩]

set_option maxHeartbeats 2000000 in
set_option maxRecDepth 40000 in
/-- C5 witness: on the ten-sender table the fan-in iff yields the
`smurfing_fan_in` flag for the receiver, and the first-anchor clause is
exercised at the group's anchor 0. -/
theorem c5_smurfing_first_anchor_semantics_witness :
    hasFlag (smurfingRun defaultSettings (fun _ => 0) (fun _ => 0)
        smurfDemoDf).account_flags "C" "smurfing_fan_in"
    ∧ smurfTriggerAt defaultSettings (smurfDemoDf.map (·.ts))
        (smurfDemoDf.map (·.sender)) 0 := by
  have hfa : firstAnchorOpt defaultSettings (smurfDemoDf.map (·.ts))
      (smurfDemoDf.map (·.sender)) = some 0 := by decide
  have h0 := c5_smurfing_first_anchor_semantics defaultSettings (fun _ => 0)
    (fun _ => 0) smurfDemoDf "C"
  have h2 := h0.2.2.2.1 (smurfDemoDf.map (·.ts))
    (smurfDemoDf.map (·.sender)) 0
  exact ⟨h0.1.mpr (by decide), (h2 hfa).1⟩

/-! ## Cycle detector (`app/engine/algorithms/cycle_detection.py`)

The SCC decomposition (`nx.strongly_connected_components`) and the per-SCC
simple-cycle enumeration (`nx.simple_cycles`) are library calls, taken as
parameters (`sccs`, `simpleCycles`); `math.log10` is a parameter and the
per-edge timestamp aggregate `edge_ts` is a lookup parameter.  Python's
`frozenset(cycle)` keys are modelled as sorted deduplicated node lists, and
the `seen_cycles`/`clusters` sets as lists with membership semantics. -/

/-- Safety cap `_MAX_SCC_SIZE` of `cycle_detection.py`. -/
def MAX_SCC_SIZE : ℕ := 50

/-- Safety cap `_MAX_CYCLES_PER_SCC` of `cycle_detection.py`. -/
def MAX_CYCLES_PER_SCC : ℕ := 500

/-- Canonical form of `frozenset(cycle)`: the sorted set of its nodes. -/
def frozensetOf (cyc : List String) : List String :=
  sortBy pyStrLe cyc.dedup

/-- Consecutive edge pairs `(cycle[i], cycle[(i+1) % length])`. -/
def cycleEdges (cyc : List String) : List (String × String) :=
  cyc.zip (cyc.drop 1 ++ cyc.take 1)

/-- The volume loop: sum of `G[u][v].get("weight", 0.0)` over the cycle's
edges, `none` when an edge is missing (`valid_edges = False`). -/
def cycleVolume (G : Graph String) (cyc : List String) : Option ℚ :=
  (cycleEdges cyc).foldl (fun acc uv =>
    match acc with
    | none => none
    | some s =>
      if G.hasEdge uv.1 uv.2 then some (s + G.weight uv.1 uv.2) else none)
    (some 0)

/-- Translation of `CycleDetectionAlgorithm._score_cycle` (`log10` models
`math.log10`; `edge_ts u v` models the `(ts_min, ts_max)` row of the
precomputed per-edge aggregate, `none` for the `KeyError` case). -/
def scoreCycle (settings : Settings) (log10 : ℚ → ℚ)
    (edge_ts : String → String → Option (ℤ × ℤ)) (cyc : List String)
    (volume : ℚ) (median_amount : ℚ) : ℚ :=
  let length := cyc.length
  let min_len := settings.min_cycle_length
  let max_len := settings.max_cycle_length
  let f_length : ℚ := if min_len < max_len
    then (((max_len : ℤ) - (length : ℤ) : ℤ) : ℚ)
      / (((max_len : ℤ) - (min_len : ℤ) : ℤ) : ℚ)
    else 1
  let f_volume : ℚ := if 0 < median_amount
    then min 1 (log10 (max 1 (volume / median_amount)) / 3)
    else 0
  let all_ts : List ℤ := (cycleEdges cyc).flatMap (fun uv =>
    match edge_ts uv.1 uv.2 with
    | some p => [p.1, p.2]
    | none => [])
  let f_velocity : ℚ := if 2 ≤ all_ts.length then
      let span_hours : ℚ :=
        (((all_ts.foldl max (all_ts.headD 0))
          - (all_ts.foldl min (all_ts.headD 0)) : ℤ) : ℚ) / 3600000000000
      1 - min 1 (span_hours / 168)
    else 1/2
  pyRound 2 (40 * ((40/100) * f_length + (35/100) * f_volume
    + (25/100) * f_velocity))

/-- State threaded through the enumeration: the accumulating result, the
cross-SCC `seen_cycles` set, and the per-SCC counter `cycles_in_scc`. -/
structure CycleState where
  result : AlgorithmResult String
  seen : List (List String)
  cycles_in_scc : ℕ

/-- Body of the per-cycle loop (everything after the cap check): length
filter, volume filter, dedup, then scoring, flagging every member, the
max-update of each member's score, and the cluster append. -/
def cycleStep (settings : Settings) (log10 : ℚ → ℚ)
    (edge_ts : String → String → Option (ℤ × ℤ)) (G : Graph String)
    (median_amount : ℚ) (st : CycleState) (cyc : List String) : CycleState :=
  if cyc.length < settings.min_cycle_length
      ∨ settings.max_cycle_length < cyc.length then st
  else
    match cycleVolume G cyc with
    | none => st
    | some volume =>
      if volume < settings.cycle_volume_threshold_pct * median_amount
          * (cyc.length : ℚ) then st
      else
        if frozensetOf cyc ∈ st.seen then st
        else
          let score := scoreCycle settings log10 edge_ts cyc volume
            median_amount
          let pattern := "cycle_length_" ++ toString cyc.length
          let result1 := cyc.foldl
            (fun r a => bumpScore (addFlag r a pattern) a score) st.result
          { result := { result1 with clusters := result1.clusters ++ [cyc] },
            seen := st.seen ++ [frozensetOf cyc],
            cycles_in_scc := st.cycles_in_scc + 1 }

/-- The per-SCC enumeration loop: before each cycle, break out of the SCC
when `cycles_in_scc` has reached `_MAX_CYCLES_PER_SCC`. -/
def cycleSccLoop (settings : Settings) (log10 : ℚ → ℚ)
    (edge_ts : String → String → Option (ℤ × ℤ)) (G : Graph String)
    (median_amount : ℚ) : List (List String) → CycleState → CycleState
  | [], st => st
  | cyc :: rest, st =>
    if MAX_CYCLES_PER_SCC ≤ st.cycles_in_scc then st
    else cycleSccLoop settings log10 edge_ts G median_amount rest
      (cycleStep settings log10 edge_ts G median_amount st cyc)

/-- Number of cycles the per-SCC loop examines (iterations that run the
loop body rather than hitting the cap break). -/
def cycleExaminedCount (settings : Settings) (log10 : ℚ → ℚ)
    (edge_ts : String → String → Option (ℤ × ℤ)) (G : Graph String)
    (median_amount : ℚ) : List (List String) → CycleState → ℕ
  | [], _ => 0
  | cyc :: rest, st =>
    if MAX_CYCLES_PER_SCC ≤ st.cycles_in_scc then 0
    else 1 + cycleExaminedCount settings log10 edge_ts G median_amount rest
      (cycleStep settings log10 edge_ts G median_amount st cyc)

/-- Translation of `CycleDetectionAlgorithm.run`: keep the qualifying SCCs
(`min_cycle_length <= |SCC| <= _MAX_SCC_SIZE`), then run the enumeration
loop over each qualifying SCC's simple cycles with a fresh per-SCC
counter. -/
def runCycle (settings : Settings) (log10 : ℚ → ℚ)
    (edge_ts : String → String → Option (ℤ × ℤ)) (G : Graph String)
    (df : List (Row String)) (sccs : List (List String))
    (simpleCycles : List String → List (List String)) :
    AlgorithmResult String :=
  let median_amount := median (df.map (·.amount))
  let qualifying := sccs.filter (fun scc =>
    decide (settings.min_cycle_length ≤ scc.length)
      && decide (scc.length ≤ MAX_SCC_SIZE))
  (qualifying.foldl (fun st scc =>
      cycleSccLoop settings log10 edge_ts G median_amount (simpleCycles scc)
        { st with cycles_in_scc := 0 })
    ⟨AlgorithmResult.empty, [], 0⟩).result

/-- Flagging and max-updating every member leaves the clusters. -/
theorem foldl_flag_bump_clusters (pat : String) (score : ℚ) :
    ∀ (l : List String) (r : AlgorithmResult String),
      ((l.foldl (fun r a => bumpScore (addFlag r a pat) a score)
        r)).clusters = r.clusters := by
  intro l
  induction l with
  | nil => intro r; rfl
  | cons a l ih =>
    intro r
    rw [List.foldl_cons, ih, bumpScore_clusters, addFlag_clusters]

/-- One cycle-loop body increments the counter by at most one and never
decrements it. -/
theorem cycleStep_count (settings : Settings) (log10 : ℚ → ℚ)
    (edge_ts : String → String → Option (ℤ × ℤ)) (G : Graph String)
    (median_amount : ℚ) (st : CycleState) (cyc : List String) :
    st.cycles_in_scc
        ≤ (cycleStep settings log10 edge_ts G median_amount st
          cyc).cycles_in_scc
      ∧ (cycleStep settings log10 edge_ts G median_amount st
          cyc).cycles_in_scc ≤ st.cycles_in_scc + 1 := by
  simp only [cycleStep]
  split
  · omega
  · split
    · omega
    · split
      · omega
      · split
        · omega
        · exact ⟨Nat.le_succ _, Nat.le_refl _⟩

/-- One cycle-loop body appends exactly as many clusters as it adds to the
counter (one on a recorded cycle, zero otherwise). -/
theorem cycleStep_clusters_count (settings : Settings) (log10 : ℚ → ℚ)
    (edge_ts : String → String → Option (ℤ × ℤ)) (G : Graph String)
    (median_amount : ℚ) (st : CycleState) (cyc : List String) :
    (cycleStep settings log10 edge_ts G median_amount st
        cyc).result.clusters.length + st.cycles_in_scc
      = st.result.clusters.length
        + (cycleStep settings log10 edge_ts G median_amount st
          cyc).cycles_in_scc := by
  simp only [cycleStep]
  split
  · omega
  · split
    · omega
    · split
      · omega
      · split
        · omega
        · simp [foldl_flag_bump_clusters]
          omega

/-- The qualifying filter ignores oversized SCCs: pre-dropping them changes
nothing. -/
theorem qualFilter_eq (settings : Settings) :
    ∀ (sccs : List (List String)),
      sccs.filter (fun scc =>
          decide (settings.min_cycle_length ≤ scc.length)
            && decide (scc.length ≤ MAX_SCC_SIZE))
        = (sccs.filter (fun scc => decide (scc.length ≤ MAX_SCC_SIZE))).filter
            (fun scc => decide (settings.min_cycle_length ≤ scc.length)
              && decide (scc.length ≤ MAX_SCC_SIZE)) := by
  intro sccs
  induction sccs with
  | nil => rfl
  | cons s rest ih =>
    rw [List.filter_cons, List.filter_cons]
    by_cases h50 : s.length ≤ MAX_SCC_SIZE
    · rw [if_pos (decide_eq_true h50), List.filter_cons, ih]
    · have hq : (decide (settings.min_cycle_length ≤ s.length)
          && decide (s.length ≤ MAX_SCC_SIZE)) = false := by
        simp [h50]
      rw [hq, if_neg (by simp), if_neg (by simp [h50]), ih]

/-- A loop over cycles that all fail the length filter examines every one
of them (none is recorded, so the cap break never fires). -/
theorem cycleExaminedCount_filtered (settings : Settings) (log10 : ℚ → ℚ)
    (edge_ts : String → String → Option (ℤ × ℤ)) (G : Graph String)
    (median_amount : ℚ) :
    ∀ (cycles : List (List String)) (st : CycleState),
      (∀ cyc ∈ cycles, cyc.length < settings.min_cycle_length) →
      st.cycles_in_scc = 0 →
      cycleExaminedCount settings log10 edge_ts G median_amount cycles st
        = cycles.length := by
  intro cycles
  induction cycles with
  | nil => intro st _ _; rfl
  | cons cyc rest ih =>
    intro st hall h0
    have hstep : cycleStep settings log10 edge_ts G median_amount st cyc
        = st := by
      simp only [cycleStep]
      rw [if_pos (Or.inl (hall cyc (List.mem_cons_self _ _)))]
    simp only [cycleExaminedCount]
    rw [if_neg (by rw [h0]; decide), hstep,
      ih st (fun c hc => hall c (List.mem_cons_of_mem _ hc)) h0,
      List.length_cons]
    omega

/-- C6 amended: oversized SCCs (more than `_MAX_SCC_SIZE = 50` nodes) are
skipped entirely — removing them from the SCC decomposition leaves the run's
result unchanged; within one SCC the loop stops consuming the enumeration
once `cycles_in_scc` reaches `_MAX_CYCLES_PER_SCC = 500`; the per-SCC
counter never exceeds 500 and counts exactly the recorded cycles (cluster
growth equals counter growth).  The cap bounds *recorded* cycles, not the
cycles merely examined. -/
theorem c6_scc_skip_and_record_cap (settings : Settings) (log10 : ℚ → ℚ)
    (edge_ts : String → String → Option (ℤ × ℤ)) (G : Graph String)
    (df : List (Row String)) (sccs : List (List String))
    (simpleCycles : List String → List (List String)) (median_amount : ℚ) :
    (runCycle settings log10 edge_ts G df sccs simpleCycles
      = runCycle settings log10 edge_ts G df
          (sccs.filter (fun scc => decide (scc.length ≤ MAX_SCC_SIZE)))
          simpleCycles)
    ∧ (∀ (cycles : List (List String)) (st : CycleState),
        MAX_CYCLES_PER_SCC ≤ st.cycles_in_scc →
          cycleSccLoop settings log10 edge_ts G median_amount cycles st = st)
    ∧ (∀ (cycles : List (List String)) (st : CycleState),
        st.cycles_in_scc ≤ MAX_CYCLES_PER_SCC →
          (cycleSccLoop settings log10 edge_ts G median_amount cycles
            st).cycles_in_scc ≤ MAX_CYCLES_PER_SCC)
    ∧ (∀ (cycles : List (List String)) (st : CycleState),
        (cycleSccLoop settings log10 edge_ts G median_amount cycles
            st).result.clusters.length + st.cycles_in_scc
          = st.result.clusters.length
            + (cycleSccLoop settings log10 edge_ts G median_amount cycles
              st).cycles_in_scc) := by
  refine ⟨?_, ?_, ?_, ?_⟩
  · unfold runCycle
    rw [qualFilter_eq]
  · intro cycles st h
    cases cycles with
    | nil => rfl
    | cons cyc rest =>
      simp only [cycleSccLoop]
      rw [if_pos h]
  · intro cycles
    induction cycles with
    | nil => intro st h; exact h
    | cons cyc rest ih =>
      intro st h
      simp only [cycleSccLoop]
      by_cases hb : MAX_CYCLES_PER_SCC ≤ st.cycles_in_scc
      · rw [if_pos hb]
        exact h
      · rw [if_neg hb]
        refine ih _ ?_
        have hc := cycleStep_count settings log10 edge_ts G median_amount st
          cyc
        omega
  · intro cycles
    induction cycles with
    | nil => intro st; rfl
    | cons cyc rest ih =>
      intro st
      simp only [cycleSccLoop]
      by_cases hb : MAX_CYCLES_PER_SCC ≤ st.cycles_in_scc
      · rw [if_pos hb]
      · rw [if_neg hb]
        have h1 := ih (cycleStep settings log10 edge_ts G median_amount st
          cyc)
        have h2 := cycleStep_clusters_count settings log10 edge_ts G
          median_amount st cyc
        omega

/-- The 34 node names of the complete-digraph counterexample. -/
def cliqueNodes : List String :=
  (List.range 34).map (fun i => "N" ++ toString i)

/-- Its transaction rows: one transfer along every ordered pair. -/
def cliqueDf : List (Row String) :=
  cliqueNodes.flatMap (fun a => cliqueNodes.filterMap (fun b =>
    if a = b then none else some ⟨a, b, 1, 0⟩))

/-- Its 561 two-node simple cycles (every unordered pair is a 2-cycle). -/
def cliqueTwoCycles : List (List String) :=
  cliqueNodes.flatMap (fun a => cliqueNodes.filterMap (fun b =>
    if pyStrLt a b then some [a, b] else none))

set_option maxRecDepth 100000 in
set_option maxHeartbeats 1000000 in
/-- C6 counterexample: a complete digraph on 34 nodes is one qualifying SCC
(3 <= 34 <= 50), and its simple-cycle enumeration contains 561 two-node
cycles.  Every one of them fails the `min_cycle_length = 3` length filter,
so none is ever recorded, the cap break never fires, and the loop examines
all 561 > 500 of them — the claim's "at most 500 cycles per SCC are
examined" is false. -/
theorem c6_examined_cap_counterexample :
    (defaultSettings.min_cycle_length ≤ cliqueNodes.length
      ∧ cliqueNodes.length ≤ MAX_SCC_SIZE)
    ∧ (∀ cyc ∈ cliqueTwoCycles,
        cyc.length < defaultSettings.min_cycle_length)
    ∧ MAX_CYCLES_PER_SCC
      < cycleExaminedCount defaultSettings (fun _ => 0) (fun _ _ => none)
          (buildGraph cliqueDf) (median (cliqueDf.map (·.amount)))
          cliqueTwoCycles ⟨AlgorithmResult.empty, [], 0⟩ := by
  have hall : ∀ cyc ∈ cliqueTwoCycles,
      cyc.length < defaultSettings.min_cycle_length := by
    intro cyc hc
    unfold cliqueTwoCycles at hc
    rw [List.mem_flatMap] at hc
    obtain ⟨a, -, hb⟩ := hc
    rw [List.mem_filterMap] at hb
    obtain ⟨b, -, hb2⟩ := hb
    by_cases hlt : pyStrLt a b
    · rw [if_pos hlt] at hb2
      cases hb2
      show (2 : ℕ) < defaultSettings.min_cycle_length
      decide
    · rw [if_neg hlt] at hb2
      exact absurd hb2 (by simp)
  refine ⟨by decide, hall, ?_⟩
  rw [cycleExaminedCount_filtered defaultSettings (fun _ => 0)
    (fun _ _ => none) (buildGraph cliqueDf) (median (cliqueDf.map (·.amount)))
    cliqueTwoCycles ⟨AlgorithmResult.empty, [], 0⟩ hall rfl]
  decide

/-- C6 witness: the amended theorem's cap clauses at concrete states — a
loop entered at the cap consumes nothing, and one entered below the cap
ends at most at the cap. -/
theorem c6_scc_skip_and_record_cap_witness :
    (MAX_CYCLES_PER_SCC
        ≤ (⟨AlgorithmResult.empty, [], 500⟩ : CycleState).cycles_in_scc
      ∧ cycleSccLoop defaultSettings (fun _ => 0) (fun _ _ => none)
          (buildGraph []) 0 [["A", "B", "C"]]
          ⟨AlgorithmResult.empty, [], 500⟩
        = ⟨AlgorithmResult.empty, [], 500⟩)
    ∧ ((⟨AlgorithmResult.empty, [], 0⟩ : CycleState).cycles_in_scc
        ≤ MAX_CYCLES_PER_SCC
      ∧ (cycleSccLoop defaultSettings (fun _ => 0) (fun _ _ => none)
          (buildGraph []) 0 [["A", "B", "C"]]
          ⟨AlgorithmResult.empty, [], 0⟩).cycles_in_scc
        ≤ MAX_CYCLES_PER_SCC) :=
  ⟨⟨by decide,
    (c6_scc_skip_and_record_cap defaultSettings (fun _ => 0)
      (fun _ _ => none) (buildGraph []) [] [] (fun _ => []) 0).2.1
      [["A", "B", "C"]] ⟨AlgorithmResult.empty, [], 500⟩ (by decide)⟩,
   ⟨by decide,
    (c6_scc_skip_and_record_cap defaultSettings (fun _ => 0)
      (fun _ _ => none) (buildGraph []) [] [] (fun _ => []) 0).2.2.1
      [["A", "B", "C"]] ⟨AlgorithmResult.empty, [], 0⟩ (by decide)⟩⟩

end FraudX
